import Mathlib

/-!
# libpmc: PMU event resolution (`lib/libpmc/libpmc_pmu_util.c`)

A shallow embedding of the x86 half of the file (the `__amd64__ || __i386__`
branch) and theorems about it.

Conventions of the embedding.

* A C string is the list of its characters before the terminating NUL; a
  `const char *` that may be `NULL` is an `Option`.
* A call either returns or ends the process (`abort()`, or a read through a
  null pointer); `Run` records which.
* `long` is the 64-bit `long` of amd64.
* Constants, macros and record layouts of headers that are not part of the
  file (`<pmc.h>`, `hwpmc_core.h`) are taken as a parameter `Consts`.
-/

namespace Pmu

/-! ## C strings and the libc calls the file uses -/

/-- Contents of a NUL-terminated C string. -/
abbrev CStr := List Char

/-- Outcome of a call: a returned value, `abort()`, or a read through `NULL`. -/
inductive Run (α : Type) where
  | ret (a : α)
  | abort
  | fault
  deriving DecidableEq, Repr

/-- Sequencing of calls: the first process death ends the run. -/
def Run.bind {α β : Type} : Run α → (α → Run β) → Run β
  | Run.ret a, f => f a
  | Run.abort, _ => Run.abort
  | Run.fault, _ => Run.fault

/-- Result of a run seen through a function of the returned value. -/
def Run.map {α β : Type} (f : α → β) : Run α → Run β
  | Run.ret a => Run.ret (f a)
  | Run.abort => Run.abort
  | Run.fault => Run.fault

/-- Code of `tolower(c)` in the C locale. -/
def tolower (c : Char) : Nat :=
  if 65 ≤ c.toNat ∧ c.toNat ≤ 90 then c.toNat + 32 else c.toNat

/-- Sign of `strcasecmp(a, b)`: the order of the first two characters that
differ after `tolower`, a string that ends first coming first. The C standard
fixes only the sign of the result, and the file only tests it against 0. -/
def strcasecmp : CStr → CStr → Int
  | [], [] => 0
  | [], _ :: _ => -1
  | _ :: _, [] => 1
  | c :: cs, d :: ds =>
    if tolower c = tolower d then strcasecmp cs ds
    else if tolower c < tolower d then -1 else 1

/-- Sign of `strcmp(a, b)`, as for `strcasecmp` without `tolower`. -/
def strcmp : CStr → CStr → Int
  | [], [] => 0
  | [], _ :: _ => -1
  | _ :: _, [] => 1
  | c :: cs, d :: ds =>
    if c = d then strcmp cs ds else if c.toNat < d.toNat then -1 else 1

/-- Test `strncasecmp(s, find, strlen(find)) == 0`: `find` is a prefix of `s`
up to letter case. -/
def strncasecmp_eq0 : CStr → CStr → Bool
  | _, [] => true
  | [], _ :: _ => false
  | c :: cs, d :: ds => tolower c = tolower d && strncasecmp_eq0 cs ds

/-- Result of `strcasestr(s, find)` as the offset in `s` of the first
occurrence of `find` up to letter case; `none` is the `NULL` result. -/
def strcasestr : CStr → CStr → Option Nat
  | [], find => if strncasecmp_eq0 [] find then some 0 else none
  | c :: cs, find =>
    if strncasecmp_eq0 (c :: cs) find then some 0
    else (strcasestr cs find).map (fun n => n + 1)

/-- Scan of `strsep` over a non-null string: the token before the first
delimiter, and what follows the delimiter (`none` when there is none). -/
def strsep_scan (delim : Char) : CStr → CStr × Option CStr
  | [] => ([], none)
  | c :: cs =>
    if c = delim then ([], some cs)
    else ((c :: (strsep_scan delim cs).1), (strsep_scan delim cs).2)

/-- Call `tok = strsep(&s, delim)` for a one-character delimiter set: the
token returned and the new value of `s`. A null `s` gives a null token. -/
def strsep (s : Option CStr) (delim : Char) : Option CStr × Option CStr :=
  match s with
  | none => (none, none)
  | some str => (some (strsep_scan delim str).1, (strsep_scan delim str).2)

/-- Successive tokens that `strsep(&s, delim)` returns until `s` becomes
`NULL`: the pieces of `s` between delimiters, empty pieces included. -/
def strsep_all (delim : Char) : CStr → List CStr
  | [] => [[]]
  | c :: cs =>
    if c = delim then [] :: strsep_all delim cs
    else
      match strsep_all delim cs with
      | [] => [[c]]
      | t :: ts => (c :: t) :: ts

/-- Test `isspace(c)` in the C locale. -/
def isspace (c : Char) : Bool :=
  c.toNat = 32 || (9 ≤ c.toNat && c.toNat ≤ 13)

/-- Value of a character as a digit of `strtol`, letters in either case
counting from 10. -/
def digitVal (c : Char) : Option Nat :=
  if 48 ≤ c.toNat ∧ c.toNat ≤ 57 then some (c.toNat - 48)
  else if 65 ≤ c.toNat ∧ c.toNat ≤ 90 then some (c.toNat - 55)
  else if 97 ≤ c.toNat ∧ c.toNat ≤ 122 then some (c.toNat - 87)
  else none

/-- Unbounded value of the longest run of leading digits below `base`. -/
def strtol_digits (base : Nat) : CStr → Nat → Nat
  | [], acc => acc
  | c :: cs, acc =>
    match digitVal c with
    | some d => if d < base then strtol_digits base cs (acc * base + d) else acc
    | none => acc

/-- Largest `long`. -/
def LONG_MAX : Int := 2 ^ 63 - 1

/-- Smallest `long`. -/
def LONG_MIN : Int := -(2 ^ 63)

/-- Magnitude part of `strtol`: an optional `0x`/`0X` when the base is 16,
then the digits. -/
def strtol_magnitude (base : Nat) : CStr → Nat
  | c0 :: c1 :: rest =>
    if base = 16 ∧ c0 = '0' ∧ (c1 = 'x' ∨ c1 = 'X') then strtol_digits base rest 0
    else strtol_digits base (c0 :: c1 :: rest) 0
  | s => strtol_digits base s 0

/-- Sign part of `strtol`, with the result clamped to the range of `long`. -/
def strtol_signed (base : Nat) : CStr → Int
  | '-' :: rest => max LONG_MIN (-(strtol_magnitude base rest : Int))
  | '+' :: rest => min LONG_MAX (strtol_magnitude base rest : Int)
  | s => min LONG_MAX (strtol_magnitude base s : Int)

/-- Leading white space skipped by `strtol`. -/
def skip_space : CStr → CStr
  | [] => []
  | c :: cs => if isspace c then skip_space cs else c :: cs

/-- Value `strtol` reads from a string in a base: white space, sign, digits. -/
def strtol_value (base : Nat) (s : CStr) : Int :=
  strtol_signed base (skip_space s)

/-- Call `strtol(nptr, NULL, base)`. A null `nptr` is read through, which
ends the process. -/
def strtol (nptr : Option CStr) (base : Nat) : Run Int :=
  match nptr with
  | none => Run.fault
  | some s => Run.ret (strtol_value base s)

/-! ## `struct pmu_event_desc` and `pmu_parse_event` -/

/-- Record `struct pmu_event_desc`; every field holds a value below 2 to the
width of its C type. -/
@[ext]
structure pmu_event_desc where
  ped_period : Nat
  ped_offcore_rsp : Nat
  ped_event : Nat
  ped_frontend : Nat
  ped_ldlat : Nat
  ped_config1 : Nat
  ped_umask : Nat
  ped_cmask : Nat
  ped_any : Nat
  ped_inv : Nat
  ped_edge : Nat
  ped_fc_mask : Nat
  ped_ch_mask : Nat
  deriving DecidableEq, Repr

/-- Effect of `bzero(ped, sizeof(*ped))`. -/
def pmu_event_desc.zero : pmu_event_desc :=
  ⟨0, 0, 0, 0, 0, 0, 0, 0, 0, 0, 0, 0, 0⟩

/-- Conversion of a `long` to `uint64_t`. -/
def to_u64 (v : Int) : Nat := (v % 2 ^ 64).toNat

/-- Conversion of a `long` to `uint32_t`. -/
def to_u32 (v : Int) : Nat := (v % 2 ^ 32).toNat

/-- Conversion of a `long` to `uint8_t`. -/
def to_u8 (v : Int) : Nat := (v % 2 ^ 8).toNat

/-- What `pmu_parse_event` reads from the process environment. -/
structure ParseEnv where
  /-- Result of `getenv("PMUDEBUG")`. -/
  PMUDEBUG : Option CStr
  /-- Whether `strdup` finds memory. -/
  strdup_ok : Bool
  deriving DecidableEq, Repr

/-- State of the loop of `pmu_parse_event`: the descriptor being filled and
the lines written to standard output. -/
structure ParseState where
  ped : pmu_event_desc
  out : List CStr
  deriving DecidableEq, Repr

/-- Text written by `printf("unrecognized kvpair: %s:%s\n", key, value)`. -/
def unrecognized_line (key value : CStr) : CStr :=
  "unrecognized kvpair: ".toList ++ key ++ [':'] ++ value ++ ['\n']

/-- One turn of the `while` loop of `pmu_parse_event` on the token `kvp`. -/
def pmu_parse_kvp (env : ParseEnv) (st : ParseState) (kvp : CStr) : Run ParseState :=
  match strsep (some kvp) '=' with
  | (none, _) => Run.abort
  | (some key, value) =>
    let ped := st.ped
    if strcmp key "umask".toList = 0 then
      (strtol value 16).bind fun v => Run.ret { st with ped := { ped with ped_umask := to_u8 v } }
    else if strcmp key "event".toList = 0 then
      (strtol value 16).bind fun v => Run.ret { st with ped := { ped with ped_event := to_u32 v } }
    else if strcmp key "period".toList = 0 then
      (strtol value 10).bind fun v => Run.ret { st with ped := { ped with ped_period := to_u64 v } }
    else if strcmp key "offcore_rsp".toList = 0 then
      (strtol value 16).bind fun v =>
        Run.ret { st with ped := { ped with ped_offcore_rsp := to_u64 v } }
    else if strcmp key "any".toList = 0 then
      (strtol value 10).bind fun v => Run.ret { st with ped := { ped with ped_any := to_u8 v } }
    else if strcmp key "cmask".toList = 0 then
      (strtol value 10).bind fun v => Run.ret { st with ped := { ped with ped_cmask := to_u8 v } }
    else if strcmp key "inv".toList = 0 then
      (strtol value 10).bind fun v => Run.ret { st with ped := { ped with ped_inv := to_u8 v } }
    else if strcmp key "edge".toList = 0 then
      (strtol value 10).bind fun v => Run.ret { st with ped := { ped with ped_edge := to_u8 v } }
    else if strcmp key "frontend".toList = 0 then
      (strtol value 16).bind fun v =>
        Run.ret { st with ped := { ped with ped_frontend := to_u32 v } }
    else if strcmp key "ldlat".toList = 0 then
      (strtol value 16).bind fun v => Run.ret { st with ped := { ped with ped_ldlat := to_u32 v } }
    else if strcmp key "fc_mask".toList = 0 then
      (strtol value 16).bind fun v => Run.ret { st with ped := { ped with ped_fc_mask := to_u8 v } }
    else if strcmp key "ch_mask".toList = 0 then
      (strtol value 16).bind fun v => Run.ret { st with ped := { ped with ped_ch_mask := to_u8 v } }
    else if strcmp key "config1".toList = 0 then
      (strtol value 16).bind fun v =>
        Run.ret { st with ped := { ped with ped_config1 := to_u32 v } }
    else
      match env.PMUDEBUG, value with
      | some debug, some v =>
        if strcmp debug "true".toList = 0 then
          Run.ret { st with out := st.out ++ [unrecognized_line key v] }
        else Run.ret st
      | _, _ => Run.ret st

/-- The `while ((kvp = strsep(&event, ",")) != NULL)` loop, over the tokens
that `strsep` returns in turn. -/
def pmu_parse_loop (env : ParseEnv) : ParseState → List CStr → Run ParseState
  | st, [] => Run.ret st
  | st, kvp :: rest => (pmu_parse_kvp env st kvp).bind fun st1 => pmu_parse_loop env st1 rest

/-- Errno value `ENOMEM`. -/
def ENOMEM : Nat := 12

/-- Errno value `ENOENT`. -/
def ENOENT : Nat := 2

/-- Function `pmu_parse_event(ped, eventin)`: `ped` is the content of `*ped`
on entry; the result is the return code, the content of `*ped` on return and
the lines printed. -/
def pmu_parse_event (env : ParseEnv) (ped : pmu_event_desc) (eventin : CStr) :
    Run (Nat × pmu_event_desc × List CStr) :=
  if env.strdup_ok = false then Run.ret (ENOMEM, ped, [])
  else
    (pmu_parse_loop env ⟨pmu_event_desc.zero, []⟩ (strsep_all ',' eventin)).bind
      fun st => Run.ret (0, st.ped, st.out)

/-! ## Alias table, fixed-counter list, event catalog -/

/-- Record `struct pmu_alias`. -/
structure pmu_alias where
  pa_alias : CStr
  pa_name : CStr
  deriving DecidableEq, Repr

/-- Table `pmu_alias_table`, without its `{NULL, NULL}` terminator. -/
def pmu_alias_table : List pmu_alias :=
  [ ⟨"UNHALTED_CORE_CYCLES".toList, "CPU_CLK_UNHALTED.THREAD_P_ANY".toList⟩,
    ⟨"UNHALTED-CORE-CYCLES".toList, "CPU_CLK_UNHALTED.THREAD_P_ANY".toList⟩,
    ⟨"LLC_MISSES".toList, "LONGEST_LAT_CACHE.MISS".toList⟩,
    ⟨"LLC-MISSES".toList, "LONGEST_LAT_CACHE.MISS".toList⟩,
    ⟨"LLC_REFERENCE".toList, "LONGEST_LAT_CACHE.REFERENCE".toList⟩,
    ⟨"LLC-REFERENCE".toList, "LONGEST_LAT_CACHE.REFERENCE".toList⟩,
    ⟨"LLC_MISS_RHITM".toList, "mem_load_l3_miss_retired.remote_hitm".toList⟩,
    ⟨"LLC-MISS-RHITM".toList, "mem_load_l3_miss_retired.remote_hitm".toList⟩,
    ⟨"RESOURCE_STALL".toList, "RESOURCE_STALLS.ANY".toList⟩,
    ⟨"RESOURCE_STALLS_ANY".toList, "RESOURCE_STALLS.ANY".toList⟩,
    ⟨"BRANCH_INSTRUCTION_RETIRED".toList, "BR_INST_RETIRED.ALL_BRANCHES".toList⟩,
    ⟨"BRANCH-INSTRUCTION-RETIRED".toList, "BR_INST_RETIRED.ALL_BRANCHES".toList⟩,
    ⟨"BRANCH_MISSES_RETIRED".toList, "BR_MISP_RETIRED.ALL_BRANCHES".toList⟩,
    ⟨"BRANCH-MISSES-RETIRED".toList, "BR_MISP_RETIRED.ALL_BRANCHES".toList⟩,
    ⟨"cycles".toList, "tsc-tsc".toList⟩,
    ⟨"instructions".toList, "inst-retired.any_p".toList⟩,
    ⟨"branch-mispredicts".toList, "br_misp_retired.all_branches".toList⟩,
    ⟨"branches".toList, "br_inst_retired.all_branches".toList⟩,
    ⟨"interrupts".toList, "hw_interrupts.received".toList⟩,
    ⟨"ic-misses".toList, "frontend_retired.l1i_miss".toList⟩ ]

/-- Array `fixed_mode_cntrs`, without its `NULL` terminator. -/
def fixed_mode_cntrs : List CStr :=
  [ "inst_retired.any".toList,
    "cpu_clk_unhalted.thread".toList,
    "cpu_clk_unhalted.thread_any".toList,
    "cpu_clk_unhalted.ref_tsc".toList ]

/-- The `for` loop of `pmu_alias_get` over the entries that remain. -/
def pmu_alias_scan (name : CStr) : List pmu_alias → CStr
  | [] => name
  | pa :: rest =>
    if strcasecmp name pa.pa_alias = 0 then pa.pa_name else pmu_alias_scan name rest

/-- Function `pmu_alias_get(name)`. -/
def pmu_alias_get (name : CStr) : CStr :=
  pmu_alias_scan name pmu_alias_table

/-- Record `struct pmu_event` of `pmu-events/pmu-events.h`; the field `alias`
is written `alias_`, `alias` being a keyword. -/
structure pmu_event where
  name : Option CStr := none
  alias_ : Option CStr := none
  event : Option CStr := none
  desc : Option CStr := none
  topic : Option CStr := none
  long_desc : Option CStr := none
  pmu : Option CStr := none
  unit : Option CStr := none
  perpkg : Option CStr := none
  metric_expr : Option CStr := none
  metric_name : Option CStr := none
  metric_group : Option CStr := none
  deriving DecidableEq, Repr

/-- Record `struct pmu_events_map`: one partition of the generated tables.
The list `table` is the array `table` points at; a scan of it ends at the
first record whose `name`, `desc` and `event` are all `NULL`, and at the end
of the list. -/
structure pmu_events_map where
  cpuid : CStr
  version : Option CStr := none
  type : Option CStr := none
  table : List pmu_event
  deriving DecidableEq, Repr

/-- What the functions read from outside the file: the process environment
of `pmu_parse_event`, the answer of `sysctlbyname("kern.hwpmc.cpuid")`
(`none` when either call returns -1) and the generated array
`pmu_events_map` up to its `NULL` cpuid. -/
structure Env extends ParseEnv where
  sysctl_cpuid : Option CStr
  pmu_events_map : List pmu_events_map
  deriving DecidableEq, Repr

/-- The `for` loop of `pmu_events_map_get` over the partitions that remain. -/
def pmu_events_map_scan (buf : CStr) : List pmu_events_map → Option pmu_events_map
  | [] => none
  | pme :: rest => if strcmp buf pme.cpuid = 0 then some pme else pmu_events_map_scan buf rest

/-- Function `pmu_events_map_get()`. -/
def pmu_events_map_get (env : Env) : Option pmu_events_map :=
  match env.sysctl_cpuid with
  | none => none
  | some buf => pmu_events_map_scan buf env.pmu_events_map

/-- The `for` loop of `pmu_event_get` from the record at position `i`. -/
def pmu_event_scan (event_name : CStr) : List pmu_event → Nat → Option (pmu_event × Nat)
  | [], _ => none
  | pe :: rest, i =>
    if pe.name.isSome || pe.desc.isSome || pe.event.isSome then
      match pe.name with
      | none => pmu_event_scan event_name rest (i + 1)
      | some n =>
        if strcasecmp n event_name = 0 then some (pe, i)
        else pmu_event_scan event_name rest (i + 1)
    else none

/-- Function `pmu_event_get(event_name, &idx)`: the record found and the
value stored in `idx`. -/
def pmu_event_get (env : Env) (event_name : CStr) : Option (pmu_event × Nat) :=
  match pmu_events_map_get env with
  | none => none
  | some pme => pmu_event_scan event_name pme.table 0

/-- The `for` loop of `pmc_pmu_event_get_by_idx` from the record at position
`i`, and the `pe->name` it returns: the walk ends at the terminating record,
whose name is `NULL`, or at position `idx`. -/
def event_get_by_idx_scan (idx : Int) : List pmu_event → Nat → Option CStr
  | [], _ => none
  | pe :: rest, i =>
    if (pe.name.isSome || pe.desc.isSome || pe.event.isSome) ∧ (i : Int) < idx then
      event_get_by_idx_scan idx rest (i + 1)
    else pe.name

/-- Function `pmc_pmu_event_get_by_idx(idx)`. -/
def pmc_pmu_event_get_by_idx (env : Env) (idx : Int) : Option CStr :=
  match pmu_events_map_get env with
  | none => none
  | some pme => event_get_by_idx_scan idx pme.table 0

/-- Function `pmc_pmu_enabled()`: the value of the comparison
`pmu_events_map_get() != NULL`, 1 or 0. -/
def pmc_pmu_enabled (env : Env) : Nat :=
  if (pmu_events_map_get env).isSome then 1 else 0

/-! ## `pmc_pmu_pmcallocate` -/

/-- Constants and macros of `<pmc.h>` and `hwpmc_core.h` that the file uses. -/
structure Consts where
  PMC_CAP_INTERRUPT : Nat
  PMC_CAP_READ : Nat
  PMC_CAP_WRITE : Nat
  PMC_CAP_QUALIFIER : Nat
  PMC_CLASS_IAF : Nat
  PMC_CLASS_IAP : Nat
  PMC_CLASS_UCP : Nat
  PMC_EV_IAF_INSTR_RETIRED_ANY : Nat
  PMC_EV_IAF_CPU_CLK_UNHALTED_CORE : Nat
  PMC_EV_IAF_CPU_CLK_UNHALTED_REF : Nat
  IAF_OS : Nat
  IAF_USR : Nat
  IAF_ANY : Nat
  IAF_PMI : Nat
  IAP_EVSEL : Nat → Nat
  IAP_UMASK : Nat → Nat
  IAP_CMASK : Nat → Nat
  IAP_USR : Nat
  IAP_OS : Nat
  IAP_EDGE : Nat
  IAP_ANY : Nat
  IAP_INT : Nat
  DEFAULT_SAMPLE_COUNT : Nat

/-- Fields of `struct pmc_op_pmcallocate` that the file names. `pm_iap_config`
and `pm_iap_rsp` are the member `pm_md.pm_iap` and `pm_iaf_flags` is the
member `pm_md.pm_iaf` of the union `pm_md`; the bytes of `pm_iaf` lie within
those of `pm_iap`. Each member is kept here as a field of its own, holding
what the code last stored through that member or cleared with it. For the
member stored last this is what memory holds; what memory shows through the
other member, whose bytes were overwritten, is not modelled. -/
structure pmc_op_pmcallocate where
  pm_caps : Nat
  pm_class : Nat
  pm_ev : Nat
  pm_iap_config : Nat
  pm_iap_rsp : Nat
  pm_iaf_flags : Nat
  deriving DecidableEq, Repr

/-- The `for (idx = 0; fixed_mode_cntrs[idx] != NULL; idx++)` loop of
`pmc_pmu_pmcallocate`: the values of `idx` and `isfixed` when it ends. -/
def fixed_mode_loop (event_name : CStr) : List CStr → Nat → Bool → Nat × Bool
  | [], idx, isfixed => (idx, isfixed)
  | c :: rest, idx, isfixed =>
    fixed_mode_loop event_name rest (idx + 1)
      (if strcmp c event_name = 0 then true else isfixed)

/-- The `if (isfixed)` branch of `pmc_pmu_pmcallocate`. -/
def pmcallocate_fixed (K : Consts) (pe : pmu_event) (ped : pmu_event_desc)
    (pm : pmc_op_pmcallocate) : Run (Nat × pmc_op_pmcallocate) :=
  let pm := { pm with pm_class := K.PMC_CLASS_IAF }
  match pe.desc with
  | none => Run.fault
  | some desc =>
    let pm :=
      if (strcasestr desc "retired".toList).isSome then
        { pm with pm_ev := K.PMC_EV_IAF_INSTR_RETIRED_ANY }
      else if (strcasestr desc "core".toList).isSome ∨
          (strcasestr desc "unhalted".toList).isSome then
        { pm with pm_ev := K.PMC_EV_IAF_CPU_CLK_UNHALTED_CORE }
      else if (strcasestr desc "ref".toList).isSome then
        { pm with pm_ev := K.PMC_EV_IAF_CPU_CLK_UNHALTED_REF }
      else pm
    let pm := { pm with pm_iaf_flags := pm.pm_iaf_flags ||| (K.IAF_USR ||| K.IAF_OS) }
    let pm :=
      if ped.ped_any ≠ 0 then { pm with pm_iaf_flags := pm.pm_iaf_flags ||| K.IAF_ANY } else pm
    let pm :=
      if pm.pm_caps &&& K.PMC_CAP_INTERRUPT ≠ 0 then
        { pm with pm_iaf_flags := pm.pm_iaf_flags ||| K.IAF_PMI }
      else pm
    Run.ret (0, pm)

/-- The rest of `pmc_pmu_pmcallocate` when `isfixed` is 0: the uncore test,
then the statements from `pm->pm_ev = idx` to the end. -/
def pmcallocate_programmable (K : Consts) (event_name : CStr) (idx : Nat)
    (ped : pmu_event_desc) (pm : pmc_op_pmcallocate) : Run (Nat × pmc_op_pmcallocate) :=
  let pm :=
    if strcasestr event_name "UNC_".toList = some 0 ∨
        (strcasestr event_name "uncore".toList).isSome then
      { pm with pm_class := K.PMC_CLASS_UCP }
    else
      { pm with pm_caps := pm.pm_caps ||| K.PMC_CAP_QUALIFIER, pm_class := K.PMC_CLASS_IAP }
  let pm := { pm with pm_ev := idx }
  let pm := { pm with pm_iap_config := pm.pm_iap_config ||| K.IAP_EVSEL ped.ped_event }
  let pm := { pm with pm_iap_config := pm.pm_iap_config ||| K.IAP_UMASK ped.ped_umask }
  let pm := { pm with pm_iap_config := pm.pm_iap_config ||| K.IAP_CMASK ped.ped_cmask }
  let pm := { pm with pm_iap_rsp := ped.ped_offcore_rsp }
  let pm := { pm with pm_iap_config := pm.pm_iap_config ||| (K.IAP_USR ||| K.IAP_OS) }
  let pm :=
    if ped.ped_edge ≠ 0 then { pm with pm_iap_config := pm.pm_iap_config ||| K.IAP_EDGE } else pm
  let pm :=
    if ped.ped_any ≠ 0 then { pm with pm_iap_config := pm.pm_iap_config ||| K.IAP_ANY } else pm
  let pm :=
    if ped.ped_inv ≠ 0 then { pm with pm_iap_config := pm.pm_iap_config ||| K.IAP_EDGE } else pm
  let pm :=
    if pm.pm_caps &&& K.PMC_CAP_INTERRUPT ≠ 0 then
      { pm with pm_iap_config := pm.pm_iap_config ||| K.IAP_INT }
    else pm
  Run.ret (0, pm)

/-- Function `pmc_pmu_pmcallocate(event_name, pm)`: the return code and the
content of `*pm` on return. The local `ped` starts cleared here; its first
content is never read, since `pmu_parse_event` clears it before filling it
and the caller reads it only after a zero return. `bzero(iap, sizeof(*iap))`
clears the union member `pm_iap`, and with it `pm_iaf_flags`. -/
def pmc_pmu_pmcallocate (K : Consts) (env : Env) (event_name : CStr)
    (pm : pmc_op_pmcallocate) : Run (Nat × pmc_op_pmcallocate) :=
  let pm := { pm with pm_iap_config := 0, pm_iap_rsp := 0, pm_iaf_flags := 0 }
  let event_name := pmu_alias_get event_name
  let pm := { pm with pm_caps := pm.pm_caps ||| (K.PMC_CAP_READ ||| K.PMC_CAP_WRITE) }
  match pmu_event_get env event_name with
  | none => Run.ret (ENOENT, pm)
  | some (pe0, idx0) =>
    match (match pe0.alias_ with
      | none => some (pe0, idx0)
      | some a => pmu_event_get env a) with
    | none => Run.ret (ENOENT, pm)
    | some (pe, _) =>
      match pe.event with
      | none => Run.ret (ENOENT, pm)
      | some descriptor =>
        (pmu_parse_event env.toParseEnv pmu_event_desc.zero descriptor).bind fun r =>
          if r.1 ≠ 0 then Run.ret (ENOENT, pm)
          else
            let ped := r.2.1
            let loop := fixed_mode_loop event_name fixed_mode_cntrs 0 false
            if loop.2 = true then pmcallocate_fixed K pe ped pm
            else pmcallocate_programmable K event_name loop.1 ped pm

/-- Function `pmc_pmu_sample_rate_get(event_name)`. The lookups pass a null
`idx`, so only the record is kept. -/
def pmc_pmu_sample_rate_get (K : Consts) (env : Env) (event_name : CStr) : Run Nat :=
  let event_name := pmu_alias_get event_name
  match pmu_event_get env event_name with
  | none => Run.ret K.DEFAULT_SAMPLE_COUNT
  | some (pe0, _) =>
    match (match pe0.alias_ with
      | none => some pe0
      | some a => (pmu_event_get env a).map Prod.fst) with
    | none => Run.ret K.DEFAULT_SAMPLE_COUNT
    | some pe =>
      match pe.event with
      | none => Run.ret K.DEFAULT_SAMPLE_COUNT
      | some descriptor =>
        (pmu_parse_event env.toParseEnv pmu_event_desc.zero descriptor).bind fun r =>
          if r.1 ≠ 0 then Run.ret K.DEFAULT_SAMPLE_COUNT
          else Run.ret r.2.1.ped_period

/-- A sample choice of the constants, used to evaluate the functions on
concrete inputs: capability and flag bits laid out as in the FreeBSD headers,
class and event codes pairwise distinct. -/
def hwpmc : Consts where
  PMC_CAP_INTERRUPT := 0x1
  PMC_CAP_READ := 0x20
  PMC_CAP_WRITE := 0x40
  PMC_CAP_QUALIFIER := 0x100
  PMC_CLASS_IAF := 6
  PMC_CLASS_IAP := 7
  PMC_CLASS_UCP := 9
  PMC_EV_IAF_INSTR_RETIRED_ANY := 20000
  PMC_EV_IAF_CPU_CLK_UNHALTED_CORE := 20001
  PMC_EV_IAF_CPU_CLK_UNHALTED_REF := 20002
  IAF_OS := 0x1
  IAF_USR := 0x2
  IAF_ANY := 0x4
  IAF_PMI := 0x8
  IAP_EVSEL := fun c => c &&& 0xFF
  IAP_UMASK := fun c => (c &&& 0xFF) <<< 8
  IAP_CMASK := fun c => (c &&& 0xFF) <<< 24
  IAP_USR := 1 <<< 16
  IAP_OS := 1 <<< 17
  IAP_EDGE := 1 <<< 18
  IAP_ANY := 1 <<< 21
  IAP_INT := 1 <<< 20
  DEFAULT_SAMPLE_COUNT := 65536

/-! ## Notions used by the statements -/

/-- Lookup step shared by `pmc_pmu_pmcallocate` and `pmc_pmu_sample_rate_get`:
`pmu_event_get` on the name, then once more on the `alias` of the record found
when that is set. The result is the record used and the value left in `idx`. -/
def catalog_lookup (env : Env) (event_name : CStr) : Option (pmu_event × Nat) :=
  match pmu_event_get env event_name with
  | none => none
  | some (pe0, idx0) =>
    match pe0.alias_ with
    | none => some (pe0, idx0)
    | some a => pmu_event_get env a

/-- The three counter classes. -/
inductive CounterClass where
  | Fixed
  | Programmable
  | Uncore
  deriving DecidableEq, Repr

/-- Class that `pmc_pmu_pmcallocate` gives a resolved name: the outcome of
its `isfixed` loop, then of its `UNC_`/`uncore` test. -/
def classify (event_name : CStr) : CounterClass :=
  if (fixed_mode_loop event_name fixed_mode_cntrs 0 false).2 = true then CounterClass.Fixed
  else if strcasestr event_name "UNC_".toList = some 0 ∨
      (strcasestr event_name "uncore".toList).isSome then CounterClass.Uncore
  else CounterClass.Programmable

/-- Content of `*pm` once `pmc_pmu_pmcallocate` has cleared `pm_md.pm_iap` and
set the read and write capabilities. -/
def pmcallocate_entry (K : Consts) (pm : pmc_op_pmcallocate) : pmc_op_pmcallocate :=
  { pm with
    pm_iap_config := 0, pm_iap_rsp := 0, pm_iaf_flags := 0,
    pm_caps := pm.pm_caps ||| (K.PMC_CAP_READ ||| K.PMC_CAP_WRITE) }

/-- Config word the specification describes for a programmable event:
event select, unit mask and counter mask, user and kernel mode, any-thread
when `any` is nonzero, interrupt when the caller's capabilities `caps` had
`PMC_CAP_INTERRUPT`, edge when `edge` or `inv` is nonzero. -/
def spec_iap_config (K : Consts) (ped : pmu_event_desc) (caps : Nat) : Nat :=
  K.IAP_EVSEL ped.ped_event ||| K.IAP_UMASK ped.ped_umask ||| K.IAP_CMASK ped.ped_cmask |||
    K.IAP_USR ||| K.IAP_OS |||
    (if ped.ped_any ≠ 0 then K.IAP_ANY else 0) |||
    (if caps &&& K.PMC_CAP_INTERRUPT ≠ 0 then K.IAP_INT else 0) |||
    (if ped.ped_edge ≠ 0 ∨ ped.ped_inv ≠ 0 then K.IAP_EDGE else 0)

/-- Flag word the specification describes for a fixed event. -/
def spec_iaf_flags (K : Consts) (ped : pmu_event_desc) (caps : Nat) : Nat :=
  K.IAF_USR ||| K.IAF_OS |||
    (if ped.ped_any ≠ 0 then K.IAF_ANY else 0) |||
    (if caps &&& K.PMC_CAP_INTERRUPT ≠ 0 then K.IAF_PMI else 0)

/-- String `s` begins with `p`, letter case ignored. -/
def starts_with_nocase (p s : CStr) : Bool :=
  (s.take p.length).map tolower == p.map tolower

/-- String `s` contains `p` somewhere, letter case ignored. -/
def contains_nocase (p s : CStr) : Bool :=
  s.tails.any (starts_with_nocase p)

/-- String `s` contains `p` somewhere, character for character. -/
def contains_exact (p s : CStr) : Bool :=
  s.tails.any fun t => t.take p.length == p

/-- Identity the specification describes for a fixed event whose description
is `desc`: the first of the three words found in it decides. -/
def spec_iaf_event (K : Consts) (desc : CStr) : Nat :=
  if contains_nocase "retired".toList desc then K.PMC_EV_IAF_INSTR_RETIRED_ANY
  else if contains_nocase "core".toList desc ∨ contains_nocase "unhalted".toList desc then
    K.PMC_EV_IAF_CPU_CLK_UNHALTED_CORE
  else K.PMC_EV_IAF_CPU_CLK_UNHALTED_REF

/-- The thirteen keys `pmu_parse_event` recognises. -/
def recognised_keys : List CStr :=
  [ "umask".toList, "event".toList, "period".toList, "offcore_rsp".toList, "any".toList,
    "cmask".toList, "inv".toList, "edge".toList, "frontend".toList, "ldlat".toList,
    "fc_mask".toList, "ch_mask".toList, "config1".toList ]

/-- Return code and descriptor of a call of `pmu_parse_event`, the printed
lines left out. -/
def parse_result (env : ParseEnv) (ped : pmu_event_desc) (eventin : CStr) :
    Run (Nat × pmu_event_desc) :=
  (pmu_parse_event env ped eventin).map fun r => (r.1, r.2.1)

/-- Token `key=value`. -/
def kv_token (kv : CStr × CStr) : CStr :=
  kv.1 ++ '=' :: kv.2

/-- Tokens written one after the other with commas between them. -/
def join_tokens : List CStr → CStr
  | [] => []
  | [t] => t
  | t :: u :: rest => t ++ ',' :: join_tokens (u :: rest)

/-- Value of the last `key=value` pair whose key is `key`, if there is one. -/
def last_value (key : CStr) : List (CStr × CStr) → Option CStr
  | [] => none
  | kv :: rest =>
    match last_value key rest with
    | some v => some v
    | none => if kv.1 = key then some kv.2 else none

/-- Number the specification gives a key: the value of its last pair read in
the key's base, and zero when the key does not occur. -/
def spec_field (key : CStr) (base : Nat) (kvs : List (CStr × CStr)) : Int :=
  match last_value key kvs with
  | some v => strtol_value base v
  | none => 0

/-- Descriptor the specification gives a list of `key=value` pairs, each
number reduced to the width of its field. -/
def spec_parsed (kvs : List (CStr × CStr)) : pmu_event_desc where
  ped_period := to_u64 (spec_field "period".toList 10 kvs)
  ped_offcore_rsp := to_u64 (spec_field "offcore_rsp".toList 16 kvs)
  ped_event := to_u32 (spec_field "event".toList 16 kvs)
  ped_frontend := to_u32 (spec_field "frontend".toList 16 kvs)
  ped_ldlat := to_u32 (spec_field "ldlat".toList 16 kvs)
  ped_config1 := to_u32 (spec_field "config1".toList 16 kvs)
  ped_umask := to_u8 (spec_field "umask".toList 16 kvs)
  ped_cmask := to_u8 (spec_field "cmask".toList 10 kvs)
  ped_any := to_u8 (spec_field "any".toList 10 kvs)
  ped_inv := to_u8 (spec_field "inv".toList 10 kvs)
  ped_edge := to_u8 (spec_field "edge".toList 10 kvs)
  ped_fc_mask := to_u8 (spec_field "fc_mask".toList 16 kvs)
  ped_ch_mask := to_u8 (spec_field "ch_mask".toList 16 kvs)

/-- Descriptor after one more `key=value` pair: the field of a recognised key
takes the new value, any other key changes nothing. -/
def set_field (ped : pmu_event_desc) (key value : CStr) : pmu_event_desc :=
  if key = "umask".toList then { ped with ped_umask := to_u8 (strtol_value 16 value) }
  else if key = "event".toList then { ped with ped_event := to_u32 (strtol_value 16 value) }
  else if key = "period".toList then { ped with ped_period := to_u64 (strtol_value 10 value) }
  else if key = "offcore_rsp".toList then
    { ped with ped_offcore_rsp := to_u64 (strtol_value 16 value) }
  else if key = "any".toList then { ped with ped_any := to_u8 (strtol_value 10 value) }
  else if key = "cmask".toList then { ped with ped_cmask := to_u8 (strtol_value 10 value) }
  else if key = "inv".toList then { ped with ped_inv := to_u8 (strtol_value 10 value) }
  else if key = "edge".toList then { ped with ped_edge := to_u8 (strtol_value 10 value) }
  else if key = "frontend".toList then
    { ped with ped_frontend := to_u32 (strtol_value 16 value) }
  else if key = "ldlat".toList then { ped with ped_ldlat := to_u32 (strtol_value 16 value) }
  else if key = "fc_mask".toList then { ped with ped_fc_mask := to_u8 (strtol_value 16 value) }
  else if key = "ch_mask".toList then { ped with ped_ch_mask := to_u8 (strtol_value 16 value) }
  else if key = "config1".toList then
    { ped with ped_config1 := to_u32 (strtol_value 16 value) }
  else ped

/-- Number of records of a table before its terminating record. -/
def table_length : List pmu_event → Nat
  | [] => 0
  | pe :: rest =>
    if pe.name.isSome || pe.desc.isSome || pe.event.isSome then table_length rest + 1 else 0

/-- The edge bit of the config word is a bit of its own: `IAP_EDGE` is not
zero and shares no bit with the event select, unit mask and counter mask
fields nor with the user, kernel, any-thread and interrupt bits. -/
def edge_bit_separate (K : Consts) : Prop :=
  K.IAP_EDGE ≠ 0 ∧
    ∀ e u c : Nat,
      (K.IAP_EVSEL e ||| K.IAP_UMASK u ||| K.IAP_CMASK c ||| K.IAP_USR ||| K.IAP_OS |||
        K.IAP_ANY ||| K.IAP_INT) &&& K.IAP_EDGE = 0

/-! ## Sample inputs -/

/-- A programmable core event. -/
def sample_llc_miss : pmu_event :=
  { name := some "longest_lat_cache.miss".toList,
    event := some "event=0x2e,umask=0x41,period=100003".toList,
    desc := some "Core-originated cacheable demand requests missed LLC".toList }

/-- A fixed-counter event. -/
def sample_inst_retired : pmu_event :=
  { name := some "inst_retired.any".toList,
    event := some "event=0xc0,any=1,period=2000003".toList,
    desc := some "Instructions retired from execution".toList }

/-- An uncore event. -/
def sample_unc_cbo : pmu_event :=
  { name := some "unc_cbo_cache_lookup.any_i".toList,
    event := some "event=0x34,umask=0x88".toList,
    desc := some "L3 lookup of any request that accesses the cache".toList }

/-- A core event whose name holds the word uncore. -/
def sample_offcore : pmu_event :=
  { name := some "offcore_response.uncore_hit".toList,
    event := some "event=0xb7,umask=0x1,offcore_rsp=0x3f803c0001".toList,
    desc := some "Offcore requests that hit outside the core".toList }

/-- A fixed-counter event whose description has none of the words
`retired`, `core`, `unhalted`, `ref`. -/
def sample_clk_thread : pmu_event :=
  { name := some "cpu_clk_unhalted.thread".toList,
    event := some "event=0x3c,period=2000003".toList,
    desc := some "Cycles when the thread is not in halt state".toList }

/-- A programmable core event with a counter mask and edge detection. -/
def sample_l2_miss : pmu_event :=
  { name := some "l2_rqsts.miss".toList,
    event := some "event=0x24,umask=0x3f,cmask=1,edge=1,period=200003".toList,
    desc := some "All requests that miss L2 cache".toList }

/-- A record that only names another one. -/
def sample_alias_record : pmu_event :=
  { name := some "llc-load-misses".toList,
    alias_ := some "longest_lat_cache.miss".toList }

/-- A small event table in the shape of the generated ones. -/
def sample_table : List pmu_event :=
  [ sample_llc_miss, sample_inst_retired, sample_unc_cbo, sample_offcore, sample_clk_thread,
    sample_l2_miss, sample_alias_record ]

/-- A host whose CPU key selects `sample_table`, with the debug toggle unset. -/
def sample_env : Env where
  PMUDEBUG := none
  strdup_ok := true
  sysctl_cpuid := some "GenuineIntel-6-5E".toList
  pmu_events_map :=
    [ { cpuid := "GenuineIntel-6-4F".toList, table := [] },
      { cpuid := "GenuineIntel-6-5E".toList, table := sample_table } ]

/-- A caller's record asking for an interrupt, with stale values elsewhere. -/
def sample_pm : pmc_op_pmcallocate :=
  { pm_caps := 0x1, pm_class := 0, pm_ev := 77, pm_iap_config := 5, pm_iap_rsp := 5,
    pm_iaf_flags := 5 }

/-- A programmable event named as the alias `instructions` resolves. -/
def sample_inst_any_p : pmu_event :=
  { name := some "inst-retired.any_p".toList,
    event := some "event=0xc0,any=1,period=2000003".toList,
    desc := some "Instructions retired, general counter".toList }

/-- A record that carries a description but no descriptor. -/
def sample_no_descriptor : pmu_event :=
  { name := some "topdown-total-slots".toList,
    desc := some "Total issue slots, derived from cycles".toList }

/-- An event with `edge=0,inv=1`. -/
def sample_inv_only : pmu_event :=
  { name := some "l2_rqsts.miss_inv".toList,
    event := some "event=0x24,umask=0x3f,edge=0,inv=1".toList,
    desc := some "Cycles without a request that misses L2 cache".toList }

/-- The same event with `edge=1,inv=0`. -/
def sample_edge_only : pmu_event :=
  { name := some "l2_rqsts.miss_edge".toList,
    event := some "event=0x24,umask=0x3f,edge=1,inv=0".toList,
    desc := some "Bursts of requests that miss L2 cache".toList }

/-- An event whose descriptor names `period` without a value. -/
def sample_bare_period : pmu_event :=
  { name := some "br_inst_retired.far_branch".toList,
    event := some "event=0xc4,umask=0x40,period".toList,
    desc := some "Far branch instructions retired".toList }

/-- An event whose `any` and `umask` values are multiples of 256. -/
def sample_wide_values : pmu_event :=
  { name := some "uops_issued.any".toList,
    event := some "event=0x0e,umask=0x100,any=256".toList,
    desc := some "Uops issued by the front end".toList }

/-- A record that names a target absent from the table. -/
def sample_dangling_alias : pmu_event :=
  { name := some "cache-misses".toList,
    alias_ := some "llc_misses.total".toList }

/-- An uncore event named in upper case by its callers. -/
def sample_unc_lookup : pmu_event :=
  { name := some "unc_cbo_cache_lookup".toList,
    event := some "event=0x34,umask=0x11".toList,
    desc := some "L3 lookups of data reads".toList }

/-- A record without a name. -/
def sample_nameless : pmu_event :=
  { desc := some "Uncore events follow".toList }

/-- A second event table. -/
def sample_table2 : List pmu_event :=
  [ sample_inst_any_p, sample_no_descriptor, sample_inv_only, sample_edge_only,
    sample_bare_period, sample_wide_values, sample_dangling_alias, sample_nameless,
    sample_unc_lookup ]

/-- A host whose CPU key selects `sample_table2`. -/
def sample_env2 : Env where
  PMUDEBUG := none
  strdup_ok := true
  sysctl_cpuid := some "GenuineIntel-6-55".toList
  pmu_events_map :=
    [ { cpuid := "GenuineIntel-6-5E".toList, table := sample_table },
      { cpuid := "GenuineIntel-6-55".toList, table := sample_table2 } ]

/-- A host whose CPU key matches no partition. -/
def sample_env_unknown_cpu : Env where
  PMUDEBUG := none
  strdup_ok := true
  sysctl_cpuid := some "AuthenticAMD-23-1".toList
  pmu_events_map :=
    [ { cpuid := "GenuineIntel-6-5E".toList, table := sample_table },
      { cpuid := "GenuineIntel-6-55".toList, table := sample_table2 } ]

/-- The first sample host at a moment when `strdup` finds no memory. -/
def sample_env_no_memory : Env where
  PMUDEBUG := none
  strdup_ok := false
  sysctl_cpuid := some "GenuineIntel-6-5E".toList
  pmu_events_map :=
    [ { cpuid := "GenuineIntel-6-4F".toList, table := [] },
      { cpuid := "GenuineIntel-6-5E".toList, table := sample_table } ]

/-- A record named as `sample_inst_any_p` in upper case, without a descriptor. -/
def sample_inst_any_p_heading : pmu_event :=
  { name := some "INST-RETIRED.ANY_P".toList,
    desc := some "Instructions retired, general counter (group heading)".toList }

/-- A table in which a descriptor-less record precedes `sample_inst_any_p`
under the same name up to letter case. -/
def sample_table_shadowed : List pmu_event :=
  [ sample_inst_any_p_heading, sample_inst_any_p, sample_no_descriptor ]

/-- A host whose CPU key selects `sample_table_shadowed`. -/
def sample_env_shadowed : Env where
  PMUDEBUG := none
  strdup_ok := true
  sysctl_cpuid := some "GenuineIntel-6-8E".toList
  pmu_events_map :=
    [ { cpuid := "GenuineIntel-6-5E".toList, table := sample_table },
      { cpuid := "GenuineIntel-6-8E".toList, table := sample_table_shadowed } ]

/-- The pairs of the descriptor `event=0x2e,umask=0x41,cmask=1`. -/
def sample_pairs : List (CStr × CStr) :=
  [ ("event".toList, "0x2e".toList), ("umask".toList, "0x41".toList),
    ("cmask".toList, "1".toList) ]

/-! ## Lemmas on the string calls -/

theorem strcmp_eq_zero_iff (a b : CStr) : strcmp a b = 0 ↔ a = b := by
  induction a generalizing b with
  | nil => cases b <;> simp [strcmp]
  | cons c cs ih =>
    cases b with
    | nil => simp [strcmp]
    | cons d ds =>
      by_cases h : c = d
      · simp [strcmp, h, ih]
      · by_cases h2 : c.toNat < d.toNat <;> simp [strcmp, h, h2]

theorem strcasecmp_eq_zero_iff (a b : CStr) :
    strcasecmp a b = 0 ↔ a.map tolower = b.map tolower := by
  induction a generalizing b with
  | nil => cases b <;> simp [strcasecmp]
  | cons c cs ih =>
    cases b with
    | nil => simp [strcasecmp]
    | cons d ds =>
      by_cases h : tolower c = tolower d
      · simp [strcasecmp, h, ih]
      · by_cases h2 : tolower c < tolower d <;> simp [strcasecmp, h, h2]

theorem strncasecmp_eq0_iff (s find : CStr) :
    strncasecmp_eq0 s find = starts_with_nocase find s := by
  induction find generalizing s with
  | nil => simp [strncasecmp_eq0, starts_with_nocase]
  | cons d ds ih =>
    cases s with
    | nil => simp [strncasecmp_eq0, starts_with_nocase]
    | cons c cs =>
      have := ih cs
      simp only [strncasecmp_eq0, this, starts_with_nocase, List.length_cons, List.take_succ_cons,
        List.map_cons]
      by_cases h : tolower c = tolower d <;> simp [h]

theorem strcasestr_zero_iff (s find : CStr) :
    strcasestr s find = some 0 ↔ starts_with_nocase find s = true := by
  cases s with
  | nil =>
    simp only [strcasestr, strncasecmp_eq0_iff]
    by_cases h : starts_with_nocase find [] = true <;> simp [h]
  | cons c cs =>
    simp only [strcasestr, strncasecmp_eq0_iff]
    by_cases h : starts_with_nocase find (c :: cs) = true
    · simp [h]
    · simp only [h, if_false, Bool.false_eq_true, iff_false]
      cases strcasestr cs find <;> simp

theorem strcasestr_isSome_iff (s find : CStr) :
    (strcasestr s find).isSome = contains_nocase find s := by
  induction s with
  | nil =>
    simp only [strcasestr, strncasecmp_eq0_iff, contains_nocase, List.tails, List.any_cons,
      List.any_nil, Bool.or_false]
    cases starts_with_nocase find [] <;> simp
  | cons c cs ih =>
    simp only [contains_nocase] at ih
    simp only [strcasestr, strncasecmp_eq0_iff, contains_nocase, List.tails, List.any_cons]
    cases h : starts_with_nocase find (c :: cs)
    · simp [← ih]
    · simp

theorem strsep_all_ne_nil (delim : Char) (s : CStr) : strsep_all delim s ≠ [] := by
  induction s with
  | nil => simp [strsep_all]
  | cons c cs ih =>
    unfold strsep_all
    split
    · simp
    · split <;> simp

/-- The token list is what repeated `strsep` calls deliver: the first token,
then the tokens of what `strsep` leaves in the string pointer. -/
theorem strsep_all_eq_scan (delim : Char) (s : CStr) :
    strsep_all delim s =
      (strsep_scan delim s).1 ::
        (match (strsep_scan delim s).2 with
          | none => []
          | some rest => strsep_all delim rest) := by
  induction s with
  | nil => simp [strsep_all, strsep_scan]
  | cons c cs ih =>
    by_cases h : c = delim
    · simp [strsep_all, strsep_scan, h]
    · simp only [strsep_all, strsep_scan, if_neg h]
      rw [ih]

theorem strsep_all_append (delim : Char) (a b : CStr) :
    strsep_all delim (a ++ delim :: b) = strsep_all delim a ++ strsep_all delim b := by
  induction a with
  | nil => simp [strsep_all]
  | cons c cs ih =>
    by_cases h : c = delim
    · simp [strsep_all, h, ih]
    · have hne := strsep_all_ne_nil delim cs
      simp only [List.cons_append, strsep_all, if_neg h, List.append_eq, ih]
      cases hcs : strsep_all delim cs with
      | nil => exact absurd hcs hne
      | cons t ts => simp

theorem strsep_all_single (delim : Char) (t : CStr) (h : delim ∉ t) :
    strsep_all delim t = [t] := by
  induction t with
  | nil => simp [strsep_all]
  | cons c cs ih =>
    have hc : ¬ c = delim := fun e => h (by simp [e])
    have hcs : delim ∉ cs := fun e => h (by simp [e])
    simp [strsep_all, hc, ih hcs]

theorem strsep_all_join (ts : List CStr) (hne : ts ≠ []) (h : ∀ t ∈ ts, ',' ∉ t) :
    strsep_all ',' (join_tokens ts) = ts := by
  induction ts with
  | nil => exact absurd rfl hne
  | cons t rest ih =>
    cases rest with
    | nil => simpa [join_tokens] using strsep_all_single ',' t (h t (by simp))
    | cons u rest2 =>
      have h1 := strsep_all_single ',' t (h t (by simp))
      have h2 := ih (by simp) (fun x hx => h x (by simp [hx]))
      simp only [join_tokens, strsep_all_append, h1, h2, List.singleton_append]

theorem strsep_kv_token (kv : CStr × CStr) (h : '=' ∉ kv.1) :
    strsep (some (kv_token kv)) '=' = (some kv.1, some kv.2) := by
  have key : ∀ k v : CStr, '=' ∉ k → strsep_scan '=' (k ++ '=' :: v) = (k, some v) := by
    intro k v hk
    induction k with
    | nil => simp [strsep_scan]
    | cons c cs ih =>
      have hc : ¬ c = '=' := fun e => hk (by simp [e])
      have hcs : '=' ∉ cs := fun e => hk (by simp [e])
      simp [strsep_scan, hc, ih hcs]
  simp only [strsep, kv_token, key _ _ h]

/-! ## Lemmas on `pmu_parse_event` -/

theorem pmu_parse_kvp_pair (env : ParseEnv) (st : ParseState) (kv : CStr × CStr)
    (h : '=' ∉ kv.1) :
    ∃ out, pmu_parse_kvp env st (kv_token kv) =
      Run.ret ⟨set_field st.ped kv.1 kv.2, out⟩ := by
  unfold pmu_parse_kvp
  rw [strsep_kv_token kv h]
  simp only [strcmp_eq_zero_iff]
  unfold set_field
  by_cases h0 : kv.1 = "umask".toList
  · rw [if_pos h0, if_pos h0]; exact ⟨_, rfl⟩
  rw [if_neg h0, if_neg h0]
  by_cases h1 : kv.1 = "event".toList
  · rw [if_pos h1, if_pos h1]; exact ⟨_, rfl⟩
  rw [if_neg h1, if_neg h1]
  by_cases h2 : kv.1 = "period".toList
  · rw [if_pos h2, if_pos h2]; exact ⟨_, rfl⟩
  rw [if_neg h2, if_neg h2]
  by_cases h3 : kv.1 = "offcore_rsp".toList
  · rw [if_pos h3, if_pos h3]; exact ⟨_, rfl⟩
  rw [if_neg h3, if_neg h3]
  by_cases h4 : kv.1 = "any".toList
  · rw [if_pos h4, if_pos h4]; exact ⟨_, rfl⟩
  rw [if_neg h4, if_neg h4]
  by_cases h5 : kv.1 = "cmask".toList
  · rw [if_pos h5, if_pos h5]; exact ⟨_, rfl⟩
  rw [if_neg h5, if_neg h5]
  by_cases h6 : kv.1 = "inv".toList
  · rw [if_pos h6, if_pos h6]; exact ⟨_, rfl⟩
  rw [if_neg h6, if_neg h6]
  by_cases h7 : kv.1 = "edge".toList
  · rw [if_pos h7, if_pos h7]; exact ⟨_, rfl⟩
  rw [if_neg h7, if_neg h7]
  by_cases h8 : kv.1 = "frontend".toList
  · rw [if_pos h8, if_pos h8]; exact ⟨_, rfl⟩
  rw [if_neg h8, if_neg h8]
  by_cases h9 : kv.1 = "ldlat".toList
  · rw [if_pos h9, if_pos h9]; exact ⟨_, rfl⟩
  rw [if_neg h9, if_neg h9]
  by_cases h10 : kv.1 = "fc_mask".toList
  · rw [if_pos h10, if_pos h10]; exact ⟨_, rfl⟩
  rw [if_neg h10, if_neg h10]
  by_cases h11 : kv.1 = "ch_mask".toList
  · rw [if_pos h11, if_pos h11]; exact ⟨_, rfl⟩
  rw [if_neg h11, if_neg h11]
  by_cases h12 : kv.1 = "config1".toList
  · rw [if_pos h12, if_pos h12]; exact ⟨_, rfl⟩
  rw [if_neg h12, if_neg h12]
  cases env.PMUDEBUG with
  | none => exact ⟨_, rfl⟩
  | some debug =>
    simp only []
    split_ifs <;> exact ⟨_, rfl⟩

theorem pmu_parse_loop_pairs (env : ParseEnv) (kvs : List (CStr × CStr))
    (h : ∀ kv ∈ kvs, '=' ∉ kv.1) (st : ParseState) :
    ∃ out, pmu_parse_loop env st (kvs.map kv_token) =
      Run.ret ⟨kvs.foldl (fun p kv => set_field p kv.1 kv.2) st.ped, out⟩ := by
  induction kvs generalizing st with
  | nil => exact ⟨st.out, rfl⟩
  | cons kv rest ih =>
    obtain ⟨o1, h1⟩ := pmu_parse_kvp_pair env st kv (h kv (by simp))
    obtain ⟨o2, h2⟩ := ih (fun x hx => h x (by simp [hx])) ⟨set_field st.ped kv.1 kv.2, o1⟩
    exact ⟨o2, by simp only [List.map_cons, pmu_parse_loop, h1, Run.bind, h2, List.foldl_cons]⟩

theorem foldl_set_field (get : pmu_event_desc → Nat) (conv : Int → Nat) (key : CStr)
    (base : Nat)
    (hstep : ∀ ped k v, get (set_field ped k v) =
      if k = key then conv (strtol_value base v) else get ped)
    (kvs : List (CStr × CStr)) (ped : pmu_event_desc) :
    get (kvs.foldl (fun p kv => set_field p kv.1 kv.2) ped) =
      match last_value key kvs with
      | some v => conv (strtol_value base v)
      | none => get ped := by
  induction kvs generalizing ped with
  | nil => simp [last_value]
  | cons kv rest ih =>
    rw [List.foldl_cons, ih]
    simp only [last_value]
    cases last_value key rest with
    | some v => rfl
    | none =>
      simp only [hstep]
      by_cases hk : kv.1 = key <;> simp [hk]

/-- What `set_field` leaves in each field. -/
theorem set_field_eq (ped : pmu_event_desc) (k v : CStr) :
    set_field ped k v =
      { ped_period := if k = "period".toList then to_u64 (strtol_value 10 v) else ped.ped_period,
        ped_offcore_rsp := if k = "offcore_rsp".toList then to_u64 (strtol_value 16 v) else ped.ped_offcore_rsp,
        ped_event := if k = "event".toList then to_u32 (strtol_value 16 v) else ped.ped_event,
        ped_frontend := if k = "frontend".toList then to_u32 (strtol_value 16 v) else ped.ped_frontend,
        ped_ldlat := if k = "ldlat".toList then to_u32 (strtol_value 16 v) else ped.ped_ldlat,
        ped_config1 := if k = "config1".toList then to_u32 (strtol_value 16 v) else ped.ped_config1,
        ped_umask := if k = "umask".toList then to_u8 (strtol_value 16 v) else ped.ped_umask,
        ped_cmask := if k = "cmask".toList then to_u8 (strtol_value 10 v) else ped.ped_cmask,
        ped_any := if k = "any".toList then to_u8 (strtol_value 10 v) else ped.ped_any,
        ped_inv := if k = "inv".toList then to_u8 (strtol_value 10 v) else ped.ped_inv,
        ped_edge := if k = "edge".toList then to_u8 (strtol_value 10 v) else ped.ped_edge,
        ped_fc_mask := if k = "fc_mask".toList then to_u8 (strtol_value 16 v) else ped.ped_fc_mask,
        ped_ch_mask := if k = "ch_mask".toList then to_u8 (strtol_value 16 v) else ped.ped_ch_mask } := by
  unfold set_field
  by_cases h0 : k = "umask".toList
  · subst h0; rfl
  rw [if_neg h0]
  by_cases h1 : k = "event".toList
  · subst h1; rfl
  rw [if_neg h1]
  by_cases h2 : k = "period".toList
  · subst h2; rfl
  rw [if_neg h2]
  by_cases h3 : k = "offcore_rsp".toList
  · subst h3; rfl
  rw [if_neg h3]
  by_cases h4 : k = "any".toList
  · subst h4; rfl
  rw [if_neg h4]
  by_cases h5 : k = "cmask".toList
  · subst h5; rfl
  rw [if_neg h5]
  by_cases h6 : k = "inv".toList
  · subst h6; rfl
  rw [if_neg h6]
  by_cases h7 : k = "edge".toList
  · subst h7; rfl
  rw [if_neg h7]
  by_cases h8 : k = "frontend".toList
  · subst h8; rfl
  rw [if_neg h8]
  by_cases h9 : k = "ldlat".toList
  · subst h9; rfl
  rw [if_neg h9]
  by_cases h10 : k = "fc_mask".toList
  · subst h10; rfl
  rw [if_neg h10]
  by_cases h11 : k = "ch_mask".toList
  · subst h11; rfl
  rw [if_neg h11]
  by_cases h12 : k = "config1".toList
  · subst h12; rfl
  rw [if_neg h12]
  simp only [if_neg h0, if_neg h1, if_neg h2, if_neg h3, if_neg h4, if_neg h5, if_neg h6, if_neg h7, if_neg h8, if_neg h9, if_neg h10, if_neg h11, if_neg h12]

theorem foldl_field_zero (get : pmu_event_desc → Nat) (conv : Int → Nat) (key : CStr)
    (base : Nat)
    (hstep : ∀ ped k v, get (set_field ped k v) =
      if k = key then conv (strtol_value base v) else get ped)
    (hz : get pmu_event_desc.zero = 0) (hc : conv 0 = 0) (kvs : List (CStr × CStr)) :
    get (kvs.foldl (fun p kv => set_field p kv.1 kv.2) pmu_event_desc.zero) =
      conv (spec_field key base kvs) := by
  rw [foldl_set_field get conv key base hstep]
  unfold spec_field
  cases last_value key kvs <;> simp [hz, hc]

theorem foldl_set_field_zero (kvs : List (CStr × CStr)) :
    kvs.foldl (fun p kv => set_field p kv.1 kv.2) pmu_event_desc.zero = spec_parsed kvs := by
  apply pmu_event_desc.ext
  · exact foldl_field_zero (fun p => p.ped_period) to_u64 _ 10
      (fun ped k v => by rw [set_field_eq]) rfl rfl kvs
  · exact foldl_field_zero (fun p => p.ped_offcore_rsp) to_u64 _ 16
      (fun ped k v => by rw [set_field_eq]) rfl rfl kvs
  · exact foldl_field_zero (fun p => p.ped_event) to_u32 _ 16
      (fun ped k v => by rw [set_field_eq]) rfl rfl kvs
  · exact foldl_field_zero (fun p => p.ped_frontend) to_u32 _ 16
      (fun ped k v => by rw [set_field_eq]) rfl rfl kvs
  · exact foldl_field_zero (fun p => p.ped_ldlat) to_u32 _ 16
      (fun ped k v => by rw [set_field_eq]) rfl rfl kvs
  · exact foldl_field_zero (fun p => p.ped_config1) to_u32 _ 16
      (fun ped k v => by rw [set_field_eq]) rfl rfl kvs
  · exact foldl_field_zero (fun p => p.ped_umask) to_u8 _ 16
      (fun ped k v => by rw [set_field_eq]) rfl rfl kvs
  · exact foldl_field_zero (fun p => p.ped_cmask) to_u8 _ 10
      (fun ped k v => by rw [set_field_eq]) rfl rfl kvs
  · exact foldl_field_zero (fun p => p.ped_any) to_u8 _ 10
      (fun ped k v => by rw [set_field_eq]) rfl rfl kvs
  · exact foldl_field_zero (fun p => p.ped_inv) to_u8 _ 10
      (fun ped k v => by rw [set_field_eq]) rfl rfl kvs
  · exact foldl_field_zero (fun p => p.ped_edge) to_u8 _ 10
      (fun ped k v => by rw [set_field_eq]) rfl rfl kvs
  · exact foldl_field_zero (fun p => p.ped_fc_mask) to_u8 _ 16
      (fun ped k v => by rw [set_field_eq]) rfl rfl kvs
  · exact foldl_field_zero (fun p => p.ped_ch_mask) to_u8 _ 16
      (fun ped k v => by rw [set_field_eq]) rfl rfl kvs

theorem kv_token_no_comma (kv : CStr × CStr) (h1 : ',' ∉ kv.1) (h2 : ',' ∉ kv.2) :
    ',' ∉ kv_token kv := by
  unfold kv_token
  simp only [List.mem_append, List.mem_cons, not_or]
  exact ⟨h1, by decide, h2⟩

theorem pmu_parse_kvp_ped_only (e1 e2 : ParseEnv) (s1 s2 : ParseState) (kvp : CStr)
    (h : s1.ped = s2.ped) :
    (pmu_parse_kvp e1 s1 kvp).map ParseState.ped =
      (pmu_parse_kvp e2 s2 kvp).map ParseState.ped := by
  obtain ⟨p1, o1⟩ := s1
  obtain ⟨p2, o2⟩ := s2
  simp only at h
  subst h
  unfold pmu_parse_kvp
  simp only [strsep]
  generalize (strsep_scan '=' kvp).1 = key
  generalize (strsep_scan '=' kvp).2 = value
  by_cases h0 : strcmp key "umask".toList = 0
  · rw [if_pos h0, if_pos h0]; cases value <;> rfl
  rw [if_neg h0, if_neg h0]
  by_cases h1 : strcmp key "event".toList = 0
  · rw [if_pos h1, if_pos h1]; cases value <;> rfl
  rw [if_neg h1, if_neg h1]
  by_cases h2 : strcmp key "period".toList = 0
  · rw [if_pos h2, if_pos h2]; cases value <;> rfl
  rw [if_neg h2, if_neg h2]
  by_cases h3 : strcmp key "offcore_rsp".toList = 0
  · rw [if_pos h3, if_pos h3]; cases value <;> rfl
  rw [if_neg h3, if_neg h3]
  by_cases h4 : strcmp key "any".toList = 0
  · rw [if_pos h4, if_pos h4]; cases value <;> rfl
  rw [if_neg h4, if_neg h4]
  by_cases h5 : strcmp key "cmask".toList = 0
  · rw [if_pos h5, if_pos h5]; cases value <;> rfl
  rw [if_neg h5, if_neg h5]
  by_cases h6 : strcmp key "inv".toList = 0
  · rw [if_pos h6, if_pos h6]; cases value <;> rfl
  rw [if_neg h6, if_neg h6]
  by_cases h7 : strcmp key "edge".toList = 0
  · rw [if_pos h7, if_pos h7]; cases value <;> rfl
  rw [if_neg h7, if_neg h7]
  by_cases h8 : strcmp key "frontend".toList = 0
  · rw [if_pos h8, if_pos h8]; cases value <;> rfl
  rw [if_neg h8, if_neg h8]
  by_cases h9 : strcmp key "ldlat".toList = 0
  · rw [if_pos h9, if_pos h9]; cases value <;> rfl
  rw [if_neg h9, if_neg h9]
  by_cases h10 : strcmp key "fc_mask".toList = 0
  · rw [if_pos h10, if_pos h10]; cases value <;> rfl
  rw [if_neg h10, if_neg h10]
  by_cases h11 : strcmp key "ch_mask".toList = 0
  · rw [if_pos h11, if_pos h11]; cases value <;> rfl
  rw [if_neg h11, if_neg h11]
  by_cases h12 : strcmp key "config1".toList = 0
  · rw [if_pos h12, if_pos h12]; cases value <;> rfl
  rw [if_neg h12, if_neg h12]
  cases e1.PMUDEBUG <;> cases e2.PMUDEBUG <;> cases value <;> simp only [] <;>
    first
      | rfl
      | (split_ifs <;> rfl)

theorem pmu_parse_loop_ped_only (e1 e2 : ParseEnv) (toks : List CStr) (s1 s2 : ParseState)
    (h : s1.ped = s2.ped) :
    (pmu_parse_loop e1 s1 toks).map ParseState.ped =
      (pmu_parse_loop e2 s2 toks).map ParseState.ped := by
  induction toks generalizing s1 s2 with
  | nil => simp [pmu_parse_loop, Run.map, h]
  | cons t rest ih =>
    have hk := pmu_parse_kvp_ped_only e1 e2 s1 s2 t h
    simp only [pmu_parse_loop]
    cases r1 : pmu_parse_kvp e1 s1 t <;> cases r2 : pmu_parse_kvp e2 s2 t <;>
      rw [r1, r2] at hk <;> simp only [Run.map, Run.ret.injEq, reduceCtorEq] at hk <;>
      simp only [Run.bind, Run.map]
    exact ih _ _ hk

theorem pmu_parse_loop_append (env : ParseEnv) (a b : List CStr) (st : ParseState) :
    pmu_parse_loop env st (a ++ b) =
      (pmu_parse_loop env st a).bind fun st1 => pmu_parse_loop env st1 b := by
  induction a generalizing st with
  | nil => rfl
  | cons t rest ih =>
    show (pmu_parse_kvp env st t).bind (fun s => pmu_parse_loop env s (rest ++ b)) =
      ((pmu_parse_kvp env st t).bind fun s => pmu_parse_loop env s rest).bind
        fun st1 => pmu_parse_loop env st1 b
    cases pmu_parse_kvp env st t with
    | ret a => exact ih a
    | abort => rfl
    | fault => rfl

theorem pmu_parse_kvp_unrecognised (env : ParseEnv) (st : ParseState) (tok : CStr)
    (hkey : (strsep_scan '=' tok).1 ∉ recognised_keys) :
    ∃ out, pmu_parse_kvp env st tok = Run.ret ⟨st.ped, out⟩ := by
  simp only [recognised_keys, List.mem_cons, List.mem_nil_iff, or_false, not_or] at hkey
  obtain ⟨h0, h1, h2, h3, h4, h5, h6, h7, h8, h9, h10, h11, h12⟩ := hkey
  unfold pmu_parse_kvp
  simp only [strsep, strcmp_eq_zero_iff, if_neg h0, if_neg h1, if_neg h2, if_neg h3, if_neg h4,
    if_neg h5, if_neg h6, if_neg h7, if_neg h8, if_neg h9, if_neg h10, if_neg h11, if_neg h12]
  cases env.PMUDEBUG <;> cases (strsep_scan '=' tok).2 <;> simp only [] <;>
    first
      | exact ⟨_, rfl⟩
      | (split_ifs <;> exact ⟨_, rfl⟩)

theorem pmu_parse_loop_insert (e1 e2 : ParseEnv) (a b : List CStr) (tok : CStr)
    (hkey : (strsep_scan '=' tok).1 ∉ recognised_keys) (s1 s2 : ParseState)
    (h : s1.ped = s2.ped) :
    (pmu_parse_loop e1 s1 (a ++ tok :: b)).map ParseState.ped =
      (pmu_parse_loop e2 s2 (a ++ b)).map ParseState.ped := by
  rw [pmu_parse_loop_append, pmu_parse_loop_append]
  have ha := pmu_parse_loop_ped_only e1 e2 a s1 s2 h
  cases r1 : pmu_parse_loop e1 s1 a <;> cases r2 : pmu_parse_loop e2 s2 a <;>
    rw [r1, r2] at ha <;> simp only [Run.map, Run.ret.injEq, reduceCtorEq] at ha <;>
    simp only [Run.bind, Run.map]
  rename_i x y
  obtain ⟨out, hk⟩ := pmu_parse_kvp_unrecognised e1 x tok hkey
  simp only [pmu_parse_loop, hk, Run.bind]
  exact pmu_parse_loop_ped_only e1 e2 b _ _ ha

theorem parse_result_eq (env : ParseEnv) (ped : pmu_event_desc) (d : CStr) :
    parse_result env ped d =
      if env.strdup_ok = false then Run.ret (ENOMEM, ped)
      else
        ((pmu_parse_loop env ⟨pmu_event_desc.zero, []⟩ (strsep_all ',' d)).map
          ParseState.ped).map fun p => (0, p) := by
  unfold parse_result pmu_parse_event
  by_cases hm : env.strdup_ok = false
  · rw [if_pos hm, if_pos hm]; rfl
  · rw [if_neg hm, if_neg hm]
    cases pmu_parse_loop env ⟨pmu_event_desc.zero, []⟩ (strsep_all ',' d) <;> rfl

theorem pmu_parse_kvp_no_abort (env : ParseEnv) (st : ParseState) (kvp : CStr) :
    pmu_parse_kvp env st kvp ≠ Run.abort := by
  unfold pmu_parse_kvp
  simp only [strsep]
  generalize (strsep_scan '=' kvp).1 = key
  generalize (strsep_scan '=' kvp).2 = value
  by_cases h0 : strcmp key "umask".toList = 0
  · rw [if_pos h0]; cases value <;> simp [strtol, Run.bind]
  rw [if_neg h0]
  by_cases h1 : strcmp key "event".toList = 0
  · rw [if_pos h1]; cases value <;> simp [strtol, Run.bind]
  rw [if_neg h1]
  by_cases h2 : strcmp key "period".toList = 0
  · rw [if_pos h2]; cases value <;> simp [strtol, Run.bind]
  rw [if_neg h2]
  by_cases h3 : strcmp key "offcore_rsp".toList = 0
  · rw [if_pos h3]; cases value <;> simp [strtol, Run.bind]
  rw [if_neg h3]
  by_cases h4 : strcmp key "any".toList = 0
  · rw [if_pos h4]; cases value <;> simp [strtol, Run.bind]
  rw [if_neg h4]
  by_cases h5 : strcmp key "cmask".toList = 0
  · rw [if_pos h5]; cases value <;> simp [strtol, Run.bind]
  rw [if_neg h5]
  by_cases h6 : strcmp key "inv".toList = 0
  · rw [if_pos h6]; cases value <;> simp [strtol, Run.bind]
  rw [if_neg h6]
  by_cases h7 : strcmp key "edge".toList = 0
  · rw [if_pos h7]; cases value <;> simp [strtol, Run.bind]
  rw [if_neg h7]
  by_cases h8 : strcmp key "frontend".toList = 0
  · rw [if_pos h8]; cases value <;> simp [strtol, Run.bind]
  rw [if_neg h8]
  by_cases h9 : strcmp key "ldlat".toList = 0
  · rw [if_pos h9]; cases value <;> simp [strtol, Run.bind]
  rw [if_neg h9]
  by_cases h10 : strcmp key "fc_mask".toList = 0
  · rw [if_pos h10]; cases value <;> simp [strtol, Run.bind]
  rw [if_neg h10]
  by_cases h11 : strcmp key "ch_mask".toList = 0
  · rw [if_pos h11]; cases value <;> simp [strtol, Run.bind]
  rw [if_neg h11]
  by_cases h12 : strcmp key "config1".toList = 0
  · rw [if_pos h12]; cases value <;> simp [strtol, Run.bind]
  rw [if_neg h12]
  cases env.PMUDEBUG <;> cases value <;> simp only [] <;>
    first
      | exact fun h => Run.noConfusion h
      | (split_ifs <;> exact fun h => Run.noConfusion h)

theorem pmu_parse_loop_no_abort (env : ParseEnv) (toks : List CStr) (st : ParseState) :
    pmu_parse_loop env st toks ≠ Run.abort := by
  induction toks generalizing st with
  | nil => simp [pmu_parse_loop]
  | cons t rest ih =>
    have hk := pmu_parse_kvp_no_abort env st t
    simp only [pmu_parse_loop]
    cases r : pmu_parse_kvp env st t with
    | ret a => simpa [Run.bind] using ih a
    | abort => exact absurd r hk
    | fault => simp [Run.bind]

theorem pmu_parse_event_no_abort (env : ParseEnv) (ped : pmu_event_desc) (d : CStr) :
    pmu_parse_event env ped d ≠ Run.abort := by
  unfold pmu_parse_event
  split
  · simp
  · have hl := pmu_parse_loop_no_abort env (strsep_all ',' d) ⟨pmu_event_desc.zero, []⟩
    cases r : pmu_parse_loop env ⟨pmu_event_desc.zero, []⟩ (strsep_all ',' d) with
    | ret a => simp [Run.bind]
    | abort => exact absurd r hl
    | fault => simp [Run.bind]

/-! ## Lemmas on `pmc_pmu_pmcallocate` -/

theorem fixed_mode_loop_idx (event_name : CStr) (l : List CStr) (i : Nat) (b : Bool) :
    (fixed_mode_loop event_name l i b).1 = i + l.length := by
  induction l generalizing i b with
  | nil => simp [fixed_mode_loop]
  | cons c rest ih => simp [fixed_mode_loop, ih]; omega

theorem lor_land_of_disjoint (a b c : Nat) (h : b &&& c = 0) : (a ||| b) &&& c = a &&& c := by
  rw [Nat.and_distrib_right, h, Nat.or_zero]

/-- Once the lookup and the parse have succeeded, the call is its `isfixed`
branch or the rest of the function, on the record as prepared on entry. -/
theorem pmcallocate_of_lookup (K : Consts) (env : Env) (event_name : CStr)
    (pm : pmc_op_pmcallocate) (pe : pmu_event) (idx : Nat) (descriptor : CStr)
    (ped : pmu_event_desc) (out : List CStr)
    (hfind : catalog_lookup env (pmu_alias_get event_name) = some (pe, idx))
    (hev : pe.event = some descriptor)
    (hparse : pmu_parse_event env.toParseEnv pmu_event_desc.zero descriptor =
      Run.ret (0, ped, out)) :
    pmc_pmu_pmcallocate K env event_name pm =
      if (fixed_mode_loop (pmu_alias_get event_name) fixed_mode_cntrs 0 false).2 = true then
        pmcallocate_fixed K pe ped (pmcallocate_entry K pm)
      else
        pmcallocate_programmable K (pmu_alias_get event_name) 4 ped (pmcallocate_entry K pm) := by
  have hidx : (fixed_mode_loop (pmu_alias_get event_name) fixed_mode_cntrs 0 false).1 = 4 := by
    rw [fixed_mode_loop_idx]; rfl
  unfold catalog_lookup at hfind
  unfold pmc_pmu_pmcallocate
  cases h1 : pmu_event_get env (pmu_alias_get event_name) with
  | none => simp [h1] at hfind
  | some r =>
    obtain ⟨pe0, idx0⟩ := r
    simp only [h1] at hfind
    simp only [h1, hfind, hev, hparse, Run.bind, hidx, pmcallocate_entry]
    simp

theorem fixed_mode_loop_isfixed (event_name : CStr) (l : List CStr) (i : Nat) (b : Bool) :
    (fixed_mode_loop event_name l i b).2 = (b || decide (event_name ∈ l)) := by
  induction l generalizing i b with
  | nil => simp [fixed_mode_loop]
  | cons c rest ih =>
    simp only [fixed_mode_loop, ih, strcmp_eq_zero_iff, List.mem_cons]
    by_cases h : c = event_name
    · simp [h]
    · have h2 : ¬ event_name = c := fun e => h e.symm
      simp [h, h2]

/-- The statements after the `isfixed` branch, field by field. -/
theorem pmcallocate_programmable_fields (K : Consts) (event_name : CStr) (idx : Nat)
    (ped : pmu_event_desc) (pm : pmc_op_pmcallocate) (hzero : pm.pm_iap_config = 0) :
    ∃ pm1, pmcallocate_programmable K event_name idx ped pm = Run.ret (0, pm1) ∧
      pm1.pm_class =
        (if strcasestr event_name "UNC_".toList = some 0 ∨
          (strcasestr event_name "uncore".toList).isSome then K.PMC_CLASS_UCP
        else K.PMC_CLASS_IAP) ∧
      pm1.pm_caps =
        (if strcasestr event_name "UNC_".toList = some 0 ∨
          (strcasestr event_name "uncore".toList).isSome then pm.pm_caps
        else pm.pm_caps ||| K.PMC_CAP_QUALIFIER) ∧
      pm1.pm_ev = idx ∧
      pm1.pm_iap_rsp = ped.ped_offcore_rsp ∧
      pm1.pm_iaf_flags = pm.pm_iaf_flags ∧
      pm1.pm_iap_config = spec_iap_config K ped pm1.pm_caps := by
  unfold pmcallocate_programmable spec_iap_config
  by_cases hu : strcasestr event_name "UNC_".toList = some 0 ∨
      (strcasestr event_name "uncore".toList).isSome
  · simp only [if_pos hu, hzero]
    by_cases h1 : ped.ped_edge = 0 <;> by_cases h2 : ped.ped_any = 0 <;>
      by_cases h3 : ped.ped_inv = 0 <;>
      by_cases h4 : pm.pm_caps &&& K.PMC_CAP_INTERRUPT = 0 <;>
      simp only [h1, h2, h3, h4, ne_eq, not_true_eq_false, not_false_eq_true, if_true, if_false,
        or_self, or_true, true_or, Nat.zero_or, Nat.or_zero] <;>
      refine ⟨_, rfl, rfl, rfl, rfl, rfl, rfl, ?_⟩ <;>
      (try simp only [h4, not_true_eq_false, not_false_eq_true, if_true, if_false,
        Nat.or_zero]) <;>
      ac_rfl
  · simp only [if_neg hu, hzero]
    by_cases h1 : ped.ped_edge = 0 <;> by_cases h2 : ped.ped_any = 0 <;>
      by_cases h3 : ped.ped_inv = 0 <;>
      by_cases h4 : (pm.pm_caps ||| K.PMC_CAP_QUALIFIER) &&& K.PMC_CAP_INTERRUPT = 0 <;>
      simp only [h1, h2, h3, h4, ne_eq, not_true_eq_false, not_false_eq_true, if_true, if_false,
        or_self, or_true, true_or, Nat.zero_or, Nat.or_zero] <;>
      refine ⟨_, rfl, rfl, rfl, rfl, rfl, rfl, ?_⟩ <;>
      (try simp only [h4, not_true_eq_false, not_false_eq_true, if_true, if_false,
        Nat.or_zero]) <;>
      ac_rfl

/-- The `isfixed` branch, field by field, for a record that has a description. -/
theorem pmcallocate_fixed_fields (K : Consts) (pe : pmu_event) (ped : pmu_event_desc)
    (pm : pmc_op_pmcallocate) (desc : CStr) (hdesc : pe.desc = some desc)
    (hzero : pm.pm_iaf_flags = 0) :
    ∃ pm1, pmcallocate_fixed K pe ped pm = Run.ret (0, pm1) ∧
      pm1.pm_class = K.PMC_CLASS_IAF ∧
      pm1.pm_caps = pm.pm_caps ∧
      pm1.pm_ev =
        (if contains_nocase "retired".toList desc = true then K.PMC_EV_IAF_INSTR_RETIRED_ANY
        else if contains_nocase "core".toList desc = true ∨
            contains_nocase "unhalted".toList desc = true then
          K.PMC_EV_IAF_CPU_CLK_UNHALTED_CORE
        else if contains_nocase "ref".toList desc = true then K.PMC_EV_IAF_CPU_CLK_UNHALTED_REF
        else pm.pm_ev) ∧
      pm1.pm_iaf_flags = spec_iaf_flags K ped pm.pm_caps := by
  unfold pmcallocate_fixed spec_iaf_flags
  simp only [hdesc, hzero, strcasestr_isSome_iff]
  by_cases h1 : contains_nocase "retired".toList desc = true <;>
    by_cases h2 : contains_nocase "core".toList desc = true ∨
      contains_nocase "unhalted".toList desc = true <;>
    by_cases h3 : contains_nocase "ref".toList desc = true <;>
    by_cases h4 : ped.ped_any = 0 <;>
    by_cases h5 : pm.pm_caps &&& K.PMC_CAP_INTERRUPT = 0 <;>
    simp only [h1, h2, h3, h4, h5, ne_eq, not_true_eq_false, not_false_eq_true, if_true,
      if_false, Nat.zero_or, Nat.or_zero, Bool.false_eq_true, false_or, or_false, or_true,
      true_or] <;>
    refine ⟨_, rfl, rfl, rfl, rfl, ?_⟩ <;>
    (try simp only [h5, not_true_eq_false, not_false_eq_true, if_true, if_false,
      Nat.or_zero])

/-! ## Lemmas on the lookups and on the paths of `pmc_pmu_pmcallocate` -/

theorem pmu_alias_scan_of_match (n : CStr) (l : List pmu_alias) (pa : pmu_alias)
    (hmem : pa ∈ l) (hm : strcasecmp n pa.pa_alias = 0)
    (huniq : ∀ e ∈ l, e.pa_alias.map tolower = pa.pa_alias.map tolower →
      e.pa_name = pa.pa_name) :
    pmu_alias_scan n l = pa.pa_name := by
  induction l with
  | nil => simp at hmem
  | cons e rest ih =>
    unfold pmu_alias_scan
    by_cases he : strcasecmp n e.pa_alias = 0
    · rw [if_pos he]
      apply huniq e (by simp)
      rw [← (strcasecmp_eq_zero_iff _ _).mp he, (strcasecmp_eq_zero_iff _ _).mp hm]
    · rw [if_neg he]
      have hne : pa ≠ e := fun h => he (h ▸ hm)
      have hrest : pa ∈ rest := by
        rcases List.mem_cons.mp hmem with h | h
        · exact absurd h hne
        · exact h
      exact ih hrest (fun x hx => huniq x (by simp [hx]))

theorem pmu_alias_scan_of_no_match (s : CStr) (l : List pmu_alias)
    (h : ∀ e ∈ l, strcasecmp s e.pa_alias ≠ 0) : pmu_alias_scan s l = s := by
  induction l with
  | nil => rfl
  | cons e rest ih =>
    unfold pmu_alias_scan
    rw [if_neg (h e (by simp))]
    exact ih (fun x hx => h x (by simp [hx]))

set_option maxRecDepth 100000 in
/-- No two entries of `pmu_alias_table` with aliases equal up to letter case
name different events. -/
theorem pmu_alias_table_unambiguous :
    ∀ pa ∈ pmu_alias_table, ∀ e ∈ pmu_alias_table,
      e.pa_alias.map tolower = pa.pa_alias.map tolower → e.pa_name = pa.pa_name := by
  decide

/-- A lookup that finds nothing ends the call with `ENOENT`. -/
theorem pmcallocate_not_found (K : Consts) (env : Env) (event_name : CStr)
    (pm : pmc_op_pmcallocate)
    (hfind : catalog_lookup env (pmu_alias_get event_name) = none) :
    pmc_pmu_pmcallocate K env event_name pm = Run.ret (ENOENT, pmcallocate_entry K pm) := by
  unfold catalog_lookup at hfind
  unfold pmc_pmu_pmcallocate
  cases h1 : pmu_event_get env (pmu_alias_get event_name) with
  | none => simp only [h1, pmcallocate_entry]
  | some r =>
    obtain ⟨pe0, idx0⟩ := r
    simp only [h1] at hfind
    simp only [h1, hfind, pmcallocate_entry]

/-- What the call does once the lookup has found a record. -/
theorem pmcallocate_found (K : Consts) (env : Env) (event_name : CStr)
    (pm : pmc_op_pmcallocate) (pe : pmu_event) (idx : Nat)
    (hfind : catalog_lookup env (pmu_alias_get event_name) = some (pe, idx)) :
    pmc_pmu_pmcallocate K env event_name pm =
      match pe.event with
      | none => Run.ret (ENOENT, pmcallocate_entry K pm)
      | some descriptor =>
        (pmu_parse_event env.toParseEnv pmu_event_desc.zero descriptor).bind fun r =>
          if r.1 ≠ 0 then Run.ret (ENOENT, pmcallocate_entry K pm)
          else if (fixed_mode_loop (pmu_alias_get event_name) fixed_mode_cntrs 0 false).2 = true
          then pmcallocate_fixed K pe r.2.1 (pmcallocate_entry K pm)
          else pmcallocate_programmable K (pmu_alias_get event_name) 4 r.2.1
            (pmcallocate_entry K pm) := by
  have hidx : (fixed_mode_loop (pmu_alias_get event_name) fixed_mode_cntrs 0 false).1 = 4 := by
    rw [fixed_mode_loop_idx]; rfl
  unfold catalog_lookup at hfind
  unfold pmc_pmu_pmcallocate
  cases h1 : pmu_event_get env (pmu_alias_get event_name) with
  | none => simp [h1] at hfind
  | some r =>
    obtain ⟨pe0, idx0⟩ := r
    simp only [h1] at hfind
    simp only [h1, hfind, hidx, pmcallocate_entry]

theorem caps_keep_bit (c r w q : Nat) :
    (c ||| (r ||| w)) &&& r = r ∧ (c ||| (r ||| w)) &&& w = w ∧
    (c ||| (r ||| w) ||| q) &&& r = r ∧ (c ||| (r ||| w) ||| q) &&& w = w := by
  refine ⟨?_, ?_, ?_, ?_⟩ <;>
    · apply Nat.eq_of_testBit_eq
      intro i
      simp only [Nat.testBit_and, Nat.testBit_or]
      cases c.testBit i <;> cases r.testBit i <;> cases w.testBit i <;> cases q.testBit i <;> rfl

theorem hwpmc_edge_bit_separate : edge_bit_separate hwpmc := by
  refine ⟨by decide, ?_⟩
  intro e u c
  apply Nat.eq_of_testBit_eq
  intro i
  show ((e &&& 0xFF ||| (u &&& 0xFF) <<< 8 ||| (c &&& 0xFF) <<< 24 ||| 1 <<< 16 ||| 1 <<< 17 |||
    1 <<< 21 ||| 1 <<< 20) &&& 1 <<< 18).testBit i = (0 : Nat).testBit i
  simp only [Nat.testBit_and, Nat.testBit_or, Nat.testBit_shiftLeft, Nat.zero_testBit,
    Nat.one_shiftLeft, Nat.testBit_two_pow]
  by_cases h : 18 = i
  · subst h
    simp
    refine ⟨fun _ => ?_, fun _ => ?_⟩ <;> decide
  · simp [h]

theorem land_zero_of_lor (a b e : Nat) (h : (a ||| b) &&& e = 0) :
    a &&& e = 0 ∧ b &&& e = 0 := by
  constructor <;>
    · apply Nat.eq_of_testBit_eq
      intro i
      have hi := congrArg (fun x => x.testBit i) h
      simp only [Nat.testBit_and, Nat.testBit_or, Nat.zero_testBit] at hi ⊢
      revert hi
      cases a.testBit i <;> cases b.testBit i <;> cases e.testBit i <;> simp

theorem lor_land_zero (a b e : Nat) (ha : a &&& e = 0) (hb : b &&& e = 0) :
    (a ||| b) &&& e = 0 := by
  rw [Nat.and_distrib_right, ha, hb]; rfl

theorem spec_iap_config_edge (K : Consts) (ped : pmu_event_desc) (caps : Nat)
    (h : edge_bit_separate K) :
    spec_iap_config K ped caps &&& K.IAP_EDGE =
      if ped.ped_edge ≠ 0 ∨ ped.ped_inv ≠ 0 then K.IAP_EDGE else 0 := by
  have hz := h.2 ped.ped_event ped.ped_umask ped.ped_cmask
  obtain ⟨hxa, hint⟩ := land_zero_of_lor _ _ _ hz
  obtain ⟨hx, hany⟩ := land_zero_of_lor _ _ _ hxa
  have hany' : (if ped.ped_any ≠ 0 then K.IAP_ANY else 0) &&& K.IAP_EDGE = 0 := by
    split
    · exact hany
    · exact Nat.zero_and _
  have hint' : (if caps &&& K.PMC_CAP_INTERRUPT ≠ 0 then K.IAP_INT else 0) &&& K.IAP_EDGE = 0 := by
    split
    · exact hint
    · exact Nat.zero_and _
  unfold spec_iap_config
  rw [Nat.and_distrib_right, lor_land_zero _ _ _ (lor_land_zero _ _ _ hx hany') hint',
    Nat.zero_or]
  split
  · exact Nat.and_self _
  · exact Nat.zero_and _

theorem pmu_event_scan_spec (n : CStr) (pe : pmu_event) (i : Nat) (l : List pmu_event)
    (k : Nat) (h : pmu_event_scan n l k = some (pe, i)) :
    k ≤ i ∧ l[i - k]? = some pe ∧ (∃ nm, pe.name = some nm ∧ strcasecmp nm n = 0) ∧
      (∀ j pj nm, j < i - k → l[j]? = some pj → pj.name = some nm → strcasecmp nm n ≠ 0) ∧
      event_get_by_idx_scan (i : Int) l k = pe.name := by
  induction l generalizing k with
  | nil => simp [pmu_event_scan] at h
  | cons p rest ih =>
    unfold pmu_event_scan at h
    by_cases hlive : (p.name.isSome || p.desc.isSome || p.event.isSome) = true
    · rw [if_pos hlive] at h
      have hrec : pmu_event_scan n rest (k + 1) = some (pe, i) →
          k ≤ i ∧ (p :: rest)[i - k]? = some pe ∧
            (∃ nm, pe.name = some nm ∧ strcasecmp nm n = 0) ∧
            (∀ j pj nm, j < i - k → (p :: rest)[j]? = some pj → pj.name = some nm →
              strcasecmp nm n ≠ 0 ∨ j = 0) ∧
            event_get_by_idx_scan (i : Int) (p :: rest) k = pe.name := by
        intro h'
        obtain ⟨hk, hget, hnm, hearlier, hback⟩ := ih (k + 1) h'
        have hik : i - k = (i - (k + 1)) + 1 := by omega
        refine ⟨by omega, ?_, hnm, ?_, ?_⟩
        · rw [hik, List.getElem?_cons_succ]; exact hget
        · intro j pj nm hj hpj hname
          cases j with
          | zero => exact Or.inr rfl
          | succ j' =>
            rw [List.getElem?_cons_succ] at hpj
            exact Or.inl (hearlier j' pj nm (by omega) hpj hname)
        · unfold event_get_by_idx_scan
          have hlt : (k : Int) < (i : Int) := by omega
          rw [if_pos ⟨hlive, hlt⟩]
          exact hback
      cases hname : p.name with
      | none =>
        simp only [hname] at h
        obtain ⟨hk, hget, hnm, hearlier, hback⟩ := hrec h
        refine ⟨hk, hget, hnm, ?_, hback⟩
        intro j pj nm hj hpj hpn
        rcases hearlier j pj nm hj hpj hpn with h1 | h1
        · exact h1
        · subst h1
          simp only [List.getElem?_cons_zero, Option.some.injEq] at hpj
          subst hpj
          rw [hname] at hpn
          exact absurd hpn (by simp)
      | some nm0 =>
        simp only [hname] at h
        by_cases hm : strcasecmp nm0 n = 0
        · rw [if_pos hm] at h
          simp only [Option.some.injEq, Prod.mk.injEq] at h
          obtain ⟨hp, hki⟩ := h
          subst hp hki
          refine ⟨le_refl _, by simp, ⟨nm0, hname, hm⟩, ?_, ?_⟩
          · intro j pj nm hj
            omega
          · unfold event_get_by_idx_scan
            rw [if_neg (fun hc => by omega)]
        · rw [if_neg hm] at h
          obtain ⟨hk, hget, hnm, hearlier, hback⟩ := hrec h
          refine ⟨hk, hget, hnm, ?_, hback⟩
          intro j pj nm hj hpj hpn
          rcases hearlier j pj nm hj hpj hpn with h1 | h1
          · exact h1
          · subst h1
            simp only [List.getElem?_cons_zero, Option.some.injEq] at hpj
            subst hpj
            rw [hname] at hpn
            simp only [Option.some.injEq] at hpn
            subst hpn
            exact hm
    · rw [if_neg hlive] at h
      simp at h

theorem event_get_by_idx_scan_past_end (idx : Int) (l : List pmu_event) (k : Nat)
    (h : ((k + table_length l : Nat) : Int) ≤ idx) :
    event_get_by_idx_scan idx l k = none := by
  induction l generalizing k with
  | nil => rfl
  | cons p rest ih =>
    unfold event_get_by_idx_scan
    unfold table_length at h
    by_cases hlive : (p.name.isSome || p.desc.isSome || p.event.isSome) = true
    · rw [if_pos hlive] at h
      rw [if_pos ⟨hlive, by omega⟩]
      exact ih (k + 1) (by omega)
    · rw [if_neg (fun hc => hlive hc.1)]
      cases hn : p.name with
      | none => rfl
      | some nm => simp [hn] at hlive

theorem pmu_events_map_scan_none_iff (buf : CStr) (l : List pmu_events_map) :
    pmu_events_map_scan buf l = none ↔ ∀ pme ∈ l, pme.cpuid ≠ buf := by
  induction l with
  | nil => simp [pmu_events_map_scan]
  | cons p rest ih =>
    unfold pmu_events_map_scan
    by_cases h : strcmp buf p.cpuid = 0
    · have hb : buf = p.cpuid := (strcmp_eq_zero_iff _ _).mp h
      rw [if_pos h]
      constructor
      · intro hc; cases hc
      · intro hall; exact absurd hb.symm (hall p (by simp))
    · have hb : ¬ p.cpuid = buf := fun e => h ((strcmp_eq_zero_iff _ _).mpr e.symm)
      simp [h, hb, ih]

/-- What `pmc_pmu_sample_rate_get` returns on each path. -/
theorem sample_rate_get_eq (K : Consts) (env : Env) (event_name : CStr) :
    pmc_pmu_sample_rate_get K env event_name =
      match catalog_lookup env (pmu_alias_get event_name) with
      | none => Run.ret K.DEFAULT_SAMPLE_COUNT
      | some (pe, _) =>
        match pe.event with
        | none => Run.ret K.DEFAULT_SAMPLE_COUNT
        | some descriptor =>
          match pmu_parse_event env.toParseEnv pmu_event_desc.zero descriptor with
          | Run.ret (rc, ped, _) =>
            Run.ret (if rc ≠ 0 then K.DEFAULT_SAMPLE_COUNT else ped.ped_period)
          | Run.abort => Run.abort
          | Run.fault => Run.fault := by
  unfold pmc_pmu_sample_rate_get catalog_lookup
  dsimp only
  cases h1 : pmu_event_get env (pmu_alias_get event_name) with
  | none => rfl
  | some r =>
    obtain ⟨pe0, idx0⟩ := r
    simp only []
    have key : ∀ pe : pmu_event,
        (match pe.event with
          | none => Run.ret K.DEFAULT_SAMPLE_COUNT
          | some descriptor =>
            (pmu_parse_event env.toParseEnv pmu_event_desc.zero descriptor).bind fun r =>
              if r.1 ≠ 0 then Run.ret K.DEFAULT_SAMPLE_COUNT else Run.ret r.2.1.ped_period) =
        (match pe.event with
          | none => Run.ret K.DEFAULT_SAMPLE_COUNT
          | some descriptor =>
            match pmu_parse_event env.toParseEnv pmu_event_desc.zero descriptor with
            | Run.ret (rc, ped, _) =>
              Run.ret (if rc ≠ 0 then K.DEFAULT_SAMPLE_COUNT else ped.ped_period)
            | Run.abort => Run.abort
            | Run.fault => Run.fault) := by
      intro pe
      cases pe.event with
      | none => rfl
      | some d =>
        simp only []
        cases pmu_parse_event env.toParseEnv pmu_event_desc.zero d with
        | ret r =>
          obtain ⟨rc, ped, out⟩ := r
          simp only [Run.bind]
          split <;> rfl
        | abort => rfl
        | fault => rfl
    cases ha : pe0.alias_ with
    | none => simp only []; exact key pe0
    | some a =>
      simp only []
      cases h2 : pmu_event_get env a with
      | none => rfl
      | some r2 =>
        obtain ⟨pe, idx⟩ := r2
        simp only [Option.map]
        exact key pe

/-- A descriptor written from `key=value` pairs parses to the descriptor the
specification gives the pairs. -/
theorem pmu_parse_event_of_pairs (env : ParseEnv) (ped : pmu_event_desc)
    (kvs : List (CStr × CStr)) (hmem : env.strdup_ok = true) (hne : kvs ≠ [])
    (hwf : ∀ kv ∈ kvs, ',' ∉ kv.1 ∧ '=' ∉ kv.1 ∧ ',' ∉ kv.2) :
    ∃ out, pmu_parse_event env ped (join_tokens (kvs.map kv_token)) =
      Run.ret (0, spec_parsed kvs, out) := by
  have htok : strsep_all ',' (join_tokens (kvs.map kv_token)) = kvs.map kv_token := by
    apply strsep_all_join
    · simpa using hne
    · intro t ht
      obtain ⟨kv, hkv, rfl⟩ := List.mem_map.mp ht
      exact kv_token_no_comma kv (hwf kv hkv).1 (hwf kv hkv).2.2
  obtain ⟨out, hloop⟩ := pmu_parse_loop_pairs env kvs (fun kv hkv => (hwf kv hkv).2.1)
    ⟨pmu_event_desc.zero, []⟩
  refine ⟨out, ?_⟩
  unfold pmu_parse_event
  rw [if_neg (by simp [hmem]), htok, hloop, foldl_set_field_zero]
  rfl

theorem to_u8_cast (v : Int) : ((to_u8 v : Nat) : Int) = v % 2 ^ 8 := by
  unfold to_u8
  exact Int.toNat_of_nonneg (Int.emod_nonneg _ (by decide))

theorem to_u32_cast (v : Int) : ((to_u32 v : Nat) : Int) = v % 2 ^ 32 := by
  unfold to_u32
  exact Int.toNat_of_nonneg (Int.emod_nonneg _ (by decide))

/-- The calls of `pmc_pmu_sample_rate_get` in which `pmu_parse_event` is not
reached or returns: the result is `DEFAULT_SAMPLE_COUNT` when there is
no CPU table, when the resolved name is not in the table, when the alias-of
target is missing, when the descriptor is null and when `pmu_parse_event`
returns nonzero; when the parse returns 0 it is the parsed `period`,
which for a descriptor of `key=value` pairs is the last `period` value read in
base 10 (as a 64-bit number) and 0 when no pair has that key. -/
theorem sample_rate_get_returning_paths (K : Consts) (env : Env) (event_name : CStr) :
    (pmu_events_map_get env = none →
      pmc_pmu_sample_rate_get K env event_name = Run.ret K.DEFAULT_SAMPLE_COUNT) ∧
    (pmu_event_get env (pmu_alias_get event_name) = none →
      pmc_pmu_sample_rate_get K env event_name = Run.ret K.DEFAULT_SAMPLE_COUNT) ∧
    (∀ pe0 idx0 a, pmu_event_get env (pmu_alias_get event_name) = some (pe0, idx0) →
      pe0.alias_ = some a → pmu_event_get env a = none →
      pmc_pmu_sample_rate_get K env event_name = Run.ret K.DEFAULT_SAMPLE_COUNT) ∧
    (∀ pe idx, catalog_lookup env (pmu_alias_get event_name) = some (pe, idx) →
      pe.event = none →
      pmc_pmu_sample_rate_get K env event_name = Run.ret K.DEFAULT_SAMPLE_COUNT) ∧
    (∀ pe idx descriptor rc ped out,
      catalog_lookup env (pmu_alias_get event_name) = some (pe, idx) →
      pe.event = some descriptor →
      pmu_parse_event env.toParseEnv pmu_event_desc.zero descriptor = Run.ret (rc, ped, out) →
      (rc ≠ 0 → pmc_pmu_sample_rate_get K env event_name = Run.ret K.DEFAULT_SAMPLE_COUNT) ∧
      (rc = 0 → pmc_pmu_sample_rate_get K env event_name = Run.ret ped.ped_period)) ∧
    (∀ pe idx kvs, catalog_lookup env (pmu_alias_get event_name) = some (pe, idx) →
      pe.event = some (join_tokens (kvs.map kv_token)) →
      env.strdup_ok = true → kvs ≠ [] →
      (∀ kv ∈ kvs, ',' ∉ kv.1 ∧ '=' ∉ kv.1 ∧ ',' ∉ kv.2) →
      pmc_pmu_sample_rate_get K env event_name =
          Run.ret (to_u64 (spec_field "period".toList 10 kvs)) ∧
        (last_value "period".toList kvs = none →
          pmc_pmu_sample_rate_get K env event_name = Run.ret 0)) := by
  have hnone : catalog_lookup env (pmu_alias_get event_name) = none →
      pmc_pmu_sample_rate_get K env event_name = Run.ret K.DEFAULT_SAMPLE_COUNT := by
    intro h; rw [sample_rate_get_eq, h]
  have hret : ∀ pe idx descriptor rc ped out,
      catalog_lookup env (pmu_alias_get event_name) = some (pe, idx) →
      pe.event = some descriptor →
      pmu_parse_event env.toParseEnv pmu_event_desc.zero descriptor = Run.ret (rc, ped, out) →
      pmc_pmu_sample_rate_get K env event_name =
        Run.ret (if rc ≠ 0 then K.DEFAULT_SAMPLE_COUNT else ped.ped_period) := by
    intro pe idx d rc ped out hl hev hp
    rw [sample_rate_get_eq, hl]
    simp only [hev, hp]
  refine ⟨?_, ?_, ?_, ?_, ?_, ?_⟩
  · intro h
    apply hnone
    unfold catalog_lookup pmu_event_get
    simp only [h]
  · intro h
    apply hnone
    unfold catalog_lookup
    simp only [h]
  · intro pe0 idx0 a h ha hd
    apply hnone
    unfold catalog_lookup
    simp only [h, ha, hd]
  · intro pe idx hl hev
    rw [sample_rate_get_eq, hl]
    simp only [hev]
  · intro pe idx d rc ped out hl hev hp
    have h := hret pe idx d rc ped out hl hev hp
    constructor
    · intro hrc; rw [h, if_pos hrc]
    · intro hrc; rw [h, if_neg (by simp [hrc])]
  · intro pe idx kvs hl hev hmem hne hwf
    obtain ⟨out, hp⟩ := pmu_parse_event_of_pairs env.toParseEnv pmu_event_desc.zero kvs hmem
      hne hwf
    have h := hret pe idx _ 0 _ out hl hev hp
    rw [if_neg (by simp)] at h
    refine ⟨h, ?_⟩
    intro hlast
    rw [h]
    unfold spec_parsed spec_field
    simp only [hlast]
    rfl

/-- The returning calls on the sample hosts: an unknown CPU,
`nonexistent_event`, the dangling alias `cache-misses` and the
descriptor-less `topdown-total-slots` give the default; `instructions` gives its period 2000003; `l2_rqsts.miss_inv`,
whose descriptor has no `period`, gives 0. -/
theorem sample_rate_get_returning_paths_samples :
    pmc_pmu_sample_rate_get hwpmc sample_env_unknown_cpu "instructions".toList =
      Run.ret hwpmc.DEFAULT_SAMPLE_COUNT ∧
    pmc_pmu_sample_rate_get hwpmc sample_env2 "nonexistent_event".toList =
      Run.ret hwpmc.DEFAULT_SAMPLE_COUNT ∧
    pmc_pmu_sample_rate_get hwpmc sample_env2 "cache-misses".toList =
      Run.ret hwpmc.DEFAULT_SAMPLE_COUNT ∧
    pmc_pmu_sample_rate_get hwpmc sample_env2 "topdown-total-slots".toList =
      Run.ret hwpmc.DEFAULT_SAMPLE_COUNT ∧
    pmc_pmu_sample_rate_get hwpmc sample_env2 "instructions".toList = Run.ret 2000003 ∧
    pmc_pmu_sample_rate_get hwpmc sample_env2 "l2_rqsts.miss_inv".toList = Run.ret 0 :=
  ⟨(sample_rate_get_returning_paths hwpmc sample_env_unknown_cpu "instructions".toList).1
      (by decide),
    (sample_rate_get_returning_paths hwpmc sample_env2 "nonexistent_event".toList).2.1
      (by decide),
    (sample_rate_get_returning_paths hwpmc sample_env2 "cache-misses".toList).2.2.1
      sample_dangling_alias 6 "llc_misses.total".toList (by decide) (by decide) (by decide),
    (sample_rate_get_returning_paths hwpmc sample_env2 "topdown-total-slots".toList).2.2.2.1
      sample_no_descriptor 1 (by decide) (by decide),
    ((sample_rate_get_returning_paths hwpmc sample_env2 "instructions".toList).2.2.2.2.1
      sample_inst_any_p 0 "event=0xc0,any=1,period=2000003".toList 0
      { pmu_event_desc.zero with ped_event := 0xc0, ped_any := 1, ped_period := 2000003 } []
      (by decide) (by decide) (by decide)).2 rfl,
    ((sample_rate_get_returning_paths hwpmc sample_env2 "l2_rqsts.miss_inv".toList).2.2.2.2.2
      sample_inv_only 2
      [ ("event".toList, "0x24".toList), ("umask".toList, "0x3f".toList),
        ("edge".toList, "0".toList), ("inv".toList, "1".toList) ]
      (by decide) (by decide) (by decide) (by decide) (by decide)).2 (by decide)⟩

/-! ## The claims -/

/-- C1, as stated, fails, in three ways. (a) On the first sample host at a
moment when `strdup` finds no memory, the alias `LLC_MISSES` is found with a
descriptor, is not in the fixed list and has neither the `UNC_` prefix nor the
word `uncore`, yet the call returns `ENOENT`, not 0. (b)
`OFFCORE_RESPONSE.UNCORE_HIT` is found with a descriptor, is not in the fixed
list, has no `UNC_` prefix and does not contain the characters `uncore`, yet
it is given class `PMC_CLASS_UCP` (9), not `PMC_CLASS_IAP` (7), and
`PMC_CAP_QUALIFIER` (0x100) is not added to the capabilities 0x61. (c) On the
second sample host `br_inst_retired.far_branch` is found with the descriptor
`event=0xc4,umask=0x40,period` and satisfies the same three tests, yet the
call does not return: `pmu_parse_event` dies in `strtol(NULL, NULL, 10)`. -/
theorem pmcallocate_programmable_not_encoded :
    (catalog_lookup sample_env_no_memory (pmu_alias_get "LLC_MISSES".toList) =
        some (sample_llc_miss, 0) ∧
      sample_llc_miss.event = some "event=0x2e,umask=0x41,period=100003".toList ∧
      pmu_alias_get "LLC_MISSES".toList ∉ fixed_mode_cntrs ∧
      starts_with_nocase "UNC_".toList (pmu_alias_get "LLC_MISSES".toList) = false ∧
      contains_nocase "uncore".toList (pmu_alias_get "LLC_MISSES".toList) = false ∧
      (pmc_pmu_pmcallocate hwpmc sample_env_no_memory "LLC_MISSES".toList sample_pm).map
        Prod.fst = Run.ret ENOENT ∧
      ENOENT = 2) ∧
    (catalog_lookup sample_env (pmu_alias_get "OFFCORE_RESPONSE.UNCORE_HIT".toList) =
        some (sample_offcore, 3) ∧
      sample_offcore.event = some "event=0xb7,umask=0x1,offcore_rsp=0x3f803c0001".toList ∧
      pmu_alias_get "OFFCORE_RESPONSE.UNCORE_HIT".toList ∉ fixed_mode_cntrs ∧
      starts_with_nocase "UNC_".toList (pmu_alias_get "OFFCORE_RESPONSE.UNCORE_HIT".toList) =
        false ∧
      contains_exact "uncore".toList (pmu_alias_get "OFFCORE_RESPONSE.UNCORE_HIT".toList) =
        false ∧
      (pmc_pmu_pmcallocate hwpmc sample_env "OFFCORE_RESPONSE.UNCORE_HIT".toList
        sample_pm).map (fun r => (r.1, r.2.pm_class, r.2.pm_caps)) = Run.ret (0, 9, 0x61) ∧
      hwpmc.PMC_CLASS_IAP = 7 ∧ hwpmc.PMC_CAP_QUALIFIER = 0x100) ∧
    (catalog_lookup sample_env2 (pmu_alias_get "br_inst_retired.far_branch".toList) =
        some (sample_bare_period, 4) ∧
      sample_bare_period.event = some "event=0xc4,umask=0x40,period".toList ∧
      pmu_alias_get "br_inst_retired.far_branch".toList ∉ fixed_mode_cntrs ∧
      starts_with_nocase "UNC_".toList (pmu_alias_get "br_inst_retired.far_branch".toList) =
        false ∧
      contains_nocase "uncore".toList (pmu_alias_get "br_inst_retired.far_branch".toList) =
        false ∧
      pmc_pmu_pmcallocate hwpmc sample_env2 "br_inst_retired.far_branch".toList sample_pm =
        Run.fault) :=
  ⟨⟨by decide, by decide, by decide, by decide, by decide, by decide, by decide⟩,
    ⟨by decide, by decide, by decide, by decide, by decide, by decide, by decide, by decide⟩,
    ⟨by decide, by decide, by decide, by decide, by decide, by decide⟩⟩

/-- C1, amended: an event name that after alias resolution is found in the
catalog with a descriptor on which `pmu_parse_event` returns 0, that is not an
entry of the fixed-counter list, does not start with `UNC_` and does not
contain `uncore` (the last two with letter case ignored), is encoded with
return code 0, class `PMC_CLASS_IAP`, `PMC_CAP_QUALIFIER` added to the
capabilities (after read and write), `pm_iap_rsp` equal to the parsed
`offcore_rsp`, and a config word that is the OR of event select, unit mask,
counter mask, user and kernel mode, `IAP_ANY` when `any` is nonzero, `IAP_INT`
when the caller asked for interrupts, and `IAP_EDGE` when `edge` or `inv` is
nonzero. The interrupt capability is assumed to share no bit with read, write
and qualifier. -/
theorem pmcallocate_programmable_record (K : Consts) (env : Env) (event_name : CStr)
    (pm : pmc_op_pmcallocate) (pe : pmu_event) (idx : Nat) (descriptor : CStr)
    (ped : pmu_event_desc) (out : List CStr)
    (hcaps : (K.PMC_CAP_READ ||| K.PMC_CAP_WRITE ||| K.PMC_CAP_QUALIFIER) &&&
      K.PMC_CAP_INTERRUPT = 0)
    (hfind : catalog_lookup env (pmu_alias_get event_name) = some (pe, idx))
    (hev : pe.event = some descriptor)
    (hparse : pmu_parse_event env.toParseEnv pmu_event_desc.zero descriptor =
      Run.ret (0, ped, out))
    (hfixed : pmu_alias_get event_name ∉ fixed_mode_cntrs)
    (hstart : starts_with_nocase "UNC_".toList (pmu_alias_get event_name) = false)
    (huncore : contains_nocase "uncore".toList (pmu_alias_get event_name) = false) :
    ∃ pm1, pmc_pmu_pmcallocate K env event_name pm = Run.ret (0, pm1) ∧
      pm1.pm_class = K.PMC_CLASS_IAP ∧
      pm1.pm_caps =
        pm.pm_caps ||| K.PMC_CAP_READ ||| K.PMC_CAP_WRITE ||| K.PMC_CAP_QUALIFIER ∧
      pm1.pm_iap_rsp = ped.ped_offcore_rsp ∧
      pm1.pm_iap_config = spec_iap_config K ped pm.pm_caps := by
  have hf : ¬ (fixed_mode_loop (pmu_alias_get event_name) fixed_mode_cntrs 0 false).2 = true := by
    rw [fixed_mode_loop_isfixed]
    simpa using hfixed
  have hu : ¬ (strcasestr (pmu_alias_get event_name) "UNC_".toList = some 0 ∨
      (strcasestr (pmu_alias_get event_name) "uncore".toList).isSome) := by
    rw [strcasestr_zero_iff, strcasestr_isSome_iff, hstart, huncore]
    decide
  rw [pmcallocate_of_lookup K env event_name pm pe idx descriptor ped out hfind hev hparse,
    if_neg hf]
  obtain ⟨pm1, h0, hcl, hcp, -, hrsp, -, hcfg⟩ :=
    pmcallocate_programmable_fields K (pmu_alias_get event_name) 4 ped
      (pmcallocate_entry K pm) rfl
  rw [if_neg hu] at hcl hcp
  have hcp2 : pm1.pm_caps =
      pm.pm_caps ||| (K.PMC_CAP_READ ||| K.PMC_CAP_WRITE ||| K.PMC_CAP_QUALIFIER) := by
    rw [hcp]; simp only [pmcallocate_entry]; ac_rfl
  refine ⟨pm1, h0, hcl, ?_, hrsp, ?_⟩
  · rw [hcp2]; ac_rfl
  · rw [hcfg, hcp2]
    unfold spec_iap_config
    rw [lor_land_of_disjoint _ _ _ hcaps]

/-- C1 amended, at the alias `LLC_MISSES` on the sample host. -/
theorem pmcallocate_programmable_record_witness :
    (pmu_alias_get "LLC_MISSES".toList ∉ fixed_mode_cntrs ∧
      starts_with_nocase "UNC_".toList (pmu_alias_get "LLC_MISSES".toList) = false ∧
      contains_nocase "uncore".toList (pmu_alias_get "LLC_MISSES".toList) = false) ∧
    ∃ pm1, pmc_pmu_pmcallocate hwpmc sample_env "LLC_MISSES".toList sample_pm =
        Run.ret (0, pm1) ∧
      pm1.pm_class = hwpmc.PMC_CLASS_IAP ∧
      pm1.pm_caps =
        sample_pm.pm_caps ||| hwpmc.PMC_CAP_READ ||| hwpmc.PMC_CAP_WRITE |||
          hwpmc.PMC_CAP_QUALIFIER ∧
      pm1.pm_iap_rsp = 0 ∧
      pm1.pm_iap_config =
        spec_iap_config hwpmc
          { pmu_event_desc.zero with ped_event := 0x2e, ped_umask := 0x41, ped_period := 100003 }
          sample_pm.pm_caps :=
  ⟨⟨by decide, by decide, by decide⟩,
    pmcallocate_programmable_record hwpmc sample_env "LLC_MISSES".toList sample_pm
      sample_llc_miss 0 "event=0x2e,umask=0x41,period=100003".toList
      { pmu_event_desc.zero with ped_event := 0x2e, ped_umask := 0x41, ped_period := 100003 } []
      (by decide) (by decide) (by decide) (by decide) (by decide) (by decide) (by decide)⟩

/-- C2: the index stored in `pm_ev` for a programmable event is not the
ordinal of the lookup. On the sample host `l2_rqsts.miss` is found at ordinal
5, and `llc-load-misses` through its alias-of record at ordinal 0, yet both
calls store 4, the value `idx` has when the `fixed_mode_cntrs` loop ends. -/
theorem pmcallocate_event_index_not_ordinal :
    catalog_lookup sample_env (pmu_alias_get "l2_rqsts.miss".toList) =
      some (sample_l2_miss, 5) ∧
    pmc_pmu_pmcallocate hwpmc sample_env "l2_rqsts.miss".toList sample_pm =
      Run.ret (0, { pm_caps := 0x161, pm_class := 7, pm_ev := 4, pm_iap_config := 0x1173f24,
                    pm_iap_rsp := 0, pm_iaf_flags := 0 }) ∧
    catalog_lookup sample_env (pmu_alias_get "llc-load-misses".toList) =
      some (sample_llc_miss, 0) ∧
    pmc_pmu_pmcallocate hwpmc sample_env "llc-load-misses".toList sample_pm =
      Run.ret (0, { pm_caps := 0x161, pm_class := 7, pm_ev := 4, pm_iap_config := 0x13412e,
                    pm_iap_rsp := 0, pm_iaf_flags := 0 }) := by
  decide

/-- C3: a name that equals a `fixed_mode_cntrs` entry only up to letter case
is not classified fixed. `INST_RETIRED.ANY` compares equal to
`inst_retired.any` under `strcasecmp` and is found in the sample table, but
the call gives it class `PMC_CLASS_IAP` (7), not `PMC_CLASS_IAF` (6). -/
theorem pmcallocate_fixed_list_case_sensitive :
    strcasecmp "INST_RETIRED.ANY".toList "inst_retired.any".toList = 0 ∧
    "inst_retired.any".toList ∈ fixed_mode_cntrs ∧
    catalog_lookup sample_env (pmu_alias_get "INST_RETIRED.ANY".toList) =
      some (sample_inst_retired, 1) ∧
    classify (pmu_alias_get "INST_RETIRED.ANY".toList) = CounterClass.Programmable ∧
    pmc_pmu_pmcallocate hwpmc sample_env "INST_RETIRED.ANY".toList sample_pm =
      Run.ret (0, { pm_caps := 0x161, pm_class := 7, pm_ev := 4, pm_iap_config := 0x3300c0,
                    pm_iap_rsp := 0, pm_iaf_flags := 0 }) ∧
    hwpmc.PMC_CLASS_IAF = 6 := by
  decide

/-- C4, as stated, fails: `OFFCORE_RESPONSE.UNCORE_HIT` is not in the fixed
list, has no `UNC_` prefix in any letter case and does not contain the
characters `uncore`, yet it is given class `PMC_CLASS_UCP`, because the code
looks for `uncore` with letter case ignored. -/
theorem pmcallocate_uncore_word_any_case :
    pmu_alias_get "OFFCORE_RESPONSE.UNCORE_HIT".toList ∉ fixed_mode_cntrs ∧
    catalog_lookup sample_env (pmu_alias_get "OFFCORE_RESPONSE.UNCORE_HIT".toList) =
      some (sample_offcore, 3) ∧
    starts_with_nocase "UNC_".toList (pmu_alias_get "OFFCORE_RESPONSE.UNCORE_HIT".toList) =
      false ∧
    contains_exact "uncore".toList (pmu_alias_get "OFFCORE_RESPONSE.UNCORE_HIT".toList) =
      false ∧
    pmc_pmu_pmcallocate hwpmc sample_env "OFFCORE_RESPONSE.UNCORE_HIT".toList sample_pm =
      Run.ret (0, { pm_caps := 0x61, pm_class := 9, pm_ev := 4, pm_iap_config := 0x1301b7,
                    pm_iap_rsp := 0x3f803c0001, pm_iaf_flags := 0 }) ∧
    hwpmc.PMC_CLASS_UCP = 9 ∧ hwpmc.PMC_CLASS_IAP = 7 := by
  decide

/-- C4, amended: for a name outside the fixed list, found in the catalog with
a descriptor that parses, the class is `PMC_CLASS_UCP` when the name starts
with `UNC_` or contains `uncore`, both with letter case ignored, and
`PMC_CLASS_IAP` otherwise; and the test `strcasestr(event_name, "UNC_") ==
event_name` holds exactly when the name starts with `UNC_` up to letter case. -/
theorem pmcallocate_uncore_or_programmable (K : Consts) (env : Env) (event_name : CStr)
    (pm : pmc_op_pmcallocate) (pe : pmu_event) (idx : Nat) (descriptor : CStr)
    (ped : pmu_event_desc) (out : List CStr)
    (hfind : catalog_lookup env (pmu_alias_get event_name) = some (pe, idx))
    (hev : pe.event = some descriptor)
    (hparse : pmu_parse_event env.toParseEnv pmu_event_desc.zero descriptor =
      Run.ret (0, ped, out))
    (hfixed : pmu_alias_get event_name ∉ fixed_mode_cntrs) :
    (∃ pm1, pmc_pmu_pmcallocate K env event_name pm = Run.ret (0, pm1) ∧
      pm1.pm_class =
        (if starts_with_nocase "UNC_".toList (pmu_alias_get event_name) = true ∨
            contains_nocase "uncore".toList (pmu_alias_get event_name) = true then
          K.PMC_CLASS_UCP
        else K.PMC_CLASS_IAP)) ∧
    (strcasestr (pmu_alias_get event_name) "UNC_".toList = some 0 ↔
      starts_with_nocase "UNC_".toList (pmu_alias_get event_name) = true) := by
  refine ⟨?_, strcasestr_zero_iff _ _⟩
  have hf : ¬ (fixed_mode_loop (pmu_alias_get event_name) fixed_mode_cntrs 0 false).2 = true := by
    rw [fixed_mode_loop_isfixed]
    simpa using hfixed
  rw [pmcallocate_of_lookup K env event_name pm pe idx descriptor ped out hfind hev hparse,
    if_neg hf]
  obtain ⟨pm1, h0, hcl, -⟩ :=
    pmcallocate_programmable_fields K (pmu_alias_get event_name) 4 ped
      (pmcallocate_entry K pm) rfl
  refine ⟨pm1, h0, ?_⟩
  rw [hcl]
  simp only [strcasestr_zero_iff, strcasestr_isSome_iff]

/-- C4 amended, at `OFFCORE_RESPONSE.UNCORE_HIT` on the sample host. -/
theorem pmcallocate_uncore_or_programmable_witness :
    pmu_alias_get "OFFCORE_RESPONSE.UNCORE_HIT".toList ∉ fixed_mode_cntrs ∧
    (∃ pm1, pmc_pmu_pmcallocate hwpmc sample_env "OFFCORE_RESPONSE.UNCORE_HIT".toList
        sample_pm = Run.ret (0, pm1) ∧
      pm1.pm_class =
        (if starts_with_nocase "UNC_".toList
              (pmu_alias_get "OFFCORE_RESPONSE.UNCORE_HIT".toList) = true ∨
            contains_nocase "uncore".toList
              (pmu_alias_get "OFFCORE_RESPONSE.UNCORE_HIT".toList) = true then
          hwpmc.PMC_CLASS_UCP
        else hwpmc.PMC_CLASS_IAP)) ∧
    (strcasestr (pmu_alias_get "OFFCORE_RESPONSE.UNCORE_HIT".toList) "UNC_".toList = some 0 ↔
      starts_with_nocase "UNC_".toList
        (pmu_alias_get "OFFCORE_RESPONSE.UNCORE_HIT".toList) = true) :=
  ⟨by decide,
    pmcallocate_uncore_or_programmable hwpmc sample_env "OFFCORE_RESPONSE.UNCORE_HIT".toList
      sample_pm sample_offcore 3 "event=0xb7,umask=0x1,offcore_rsp=0x3f803c0001".toList
      { pmu_event_desc.zero with
        ped_event := 0xb7, ped_umask := 0x1, ped_offcore_rsp := 0x3f803c0001 } []
      (by decide) (by decide) (by decide) (by decide)⟩

/-- C5, as stated, fails: `cpu_clk_unhalted.thread` is classified fixed and
encoded with return code 0, but its description has none of the words
`retired`, `core`, `unhalted`, `ref`, so `pm_ev` keeps the caller's value 77,
which is none of the three fixed-counter identities. -/
theorem pmcallocate_fixed_event_left_unset :
    classify (pmu_alias_get "cpu_clk_unhalted.thread".toList) = CounterClass.Fixed ∧
    catalog_lookup sample_env (pmu_alias_get "cpu_clk_unhalted.thread".toList) =
      some (sample_clk_thread, 4) ∧
    sample_pm.pm_ev = 77 ∧
    pmc_pmu_pmcallocate hwpmc sample_env "cpu_clk_unhalted.thread".toList sample_pm =
      Run.ret (0, { pm_caps := 0x61, pm_class := 6, pm_ev := 77, pm_iap_config := 0,
                    pm_iap_rsp := 0, pm_iaf_flags := 0xb }) ∧
    77 ∉ [hwpmc.PMC_EV_IAF_INSTR_RETIRED_ANY, hwpmc.PMC_EV_IAF_CPU_CLK_UNHALTED_CORE,
      hwpmc.PMC_EV_IAF_CPU_CLK_UNHALTED_REF] := by
  decide

/-- C5, amended: an event classified fixed, found in the catalog with a
descriptor that parses and with a description that contains one of the words
`retired`, `core`, `unhalted`, `ref` (letter case ignored), is encoded with
return code 0 and class `PMC_CLASS_IAF`; `pm_ev` is the identity of the first
word found, in that order; `pm_iaf_flags` is `IAF_USR | IAF_OS`, with
`IAF_ANY` when the parsed `any` is nonzero and `IAF_PMI` when the caller's
capabilities had `PMC_CAP_INTERRUPT`. The interrupt capability is assumed to
share no bit with read and write. -/
theorem pmcallocate_fixed_record (K : Consts) (env : Env) (event_name : CStr)
    (pm : pmc_op_pmcallocate) (pe : pmu_event) (idx : Nat) (descriptor desc : CStr)
    (ped : pmu_event_desc) (out : List CStr)
    (hcaps : (K.PMC_CAP_READ ||| K.PMC_CAP_WRITE) &&& K.PMC_CAP_INTERRUPT = 0)
    (hfind : catalog_lookup env (pmu_alias_get event_name) = some (pe, idx))
    (hev : pe.event = some descriptor)
    (hparse : pmu_parse_event env.toParseEnv pmu_event_desc.zero descriptor =
      Run.ret (0, ped, out))
    (hclass : classify (pmu_alias_get event_name) = CounterClass.Fixed)
    (hdesc : pe.desc = some desc)
    (hword : contains_nocase "retired".toList desc = true ∨
      contains_nocase "core".toList desc = true ∨
      contains_nocase "unhalted".toList desc = true ∨
      contains_nocase "ref".toList desc = true) :
    ∃ pm1, pmc_pmu_pmcallocate K env event_name pm = Run.ret (0, pm1) ∧
      pm1.pm_class = K.PMC_CLASS_IAF ∧
      pm1.pm_ev = spec_iaf_event K desc ∧
      pm1.pm_iaf_flags = spec_iaf_flags K ped pm.pm_caps := by
  have hf : (fixed_mode_loop (pmu_alias_get event_name) fixed_mode_cntrs 0 false).2 = true := by
    unfold classify at hclass
    by_cases hf : (fixed_mode_loop (pmu_alias_get event_name) fixed_mode_cntrs 0 false).2 = true
    · exact hf
    · rw [if_neg hf] at hclass
      split at hclass <;> exact absurd hclass (by decide)
  rw [pmcallocate_of_lookup K env event_name pm pe idx descriptor ped out hfind hev hparse,
    if_pos hf]
  obtain ⟨pm1, h0, hcl, -, hevt, hfl⟩ :=
    pmcallocate_fixed_fields K pe ped (pmcallocate_entry K pm) desc hdesc rfl
  refine ⟨pm1, h0, hcl, ?_, ?_⟩
  · rw [hevt]
    unfold spec_iaf_event
    by_cases h1 : contains_nocase "retired".toList desc = true
    · rw [if_pos h1, if_pos h1]
    · by_cases h2 : contains_nocase "core".toList desc = true ∨
          contains_nocase "unhalted".toList desc = true
      · rw [if_neg h1, if_neg h1, if_pos h2, if_pos h2]
      · have h3 : contains_nocase "ref".toList desc = true := by
          rcases hword with h | h | h | h
          · exact absurd h h1
          · exact absurd (Or.inl h) h2
          · exact absurd (Or.inr h) h2
          · exact h
        rw [if_neg h1, if_neg h1, if_neg h2, if_neg h2, if_pos h3]
  · rw [hfl]
    unfold spec_iaf_flags
    simp only [pmcallocate_entry, lor_land_of_disjoint _ _ _ hcaps]

/-- C5 amended, at `inst_retired.any` on the sample host. -/
theorem pmcallocate_fixed_record_witness :
    classify (pmu_alias_get "inst_retired.any".toList) = CounterClass.Fixed ∧
    ∃ pm1, pmc_pmu_pmcallocate hwpmc sample_env "inst_retired.any".toList sample_pm =
        Run.ret (0, pm1) ∧
      pm1.pm_class = hwpmc.PMC_CLASS_IAF ∧
      pm1.pm_ev = spec_iaf_event hwpmc "Instructions retired from execution".toList ∧
      pm1.pm_iaf_flags =
        spec_iaf_flags hwpmc
          { pmu_event_desc.zero with ped_event := 0xc0, ped_any := 1, ped_period := 2000003 }
          sample_pm.pm_caps :=
  ⟨by decide,
    pmcallocate_fixed_record hwpmc sample_env "inst_retired.any".toList sample_pm
      sample_inst_retired 1 "event=0xc0,any=1,period=2000003".toList
      "Instructions retired from execution".toList
      { pmu_event_desc.zero with ped_event := 0xc0, ped_any := 1, ped_period := 2000003 } []
      (by decide) (by decide) (by decide) (by decide) (by decide) (by decide)
      (Or.inl (by decide))⟩

/-- C6, as stated, fails: `unc_cbo_cache_lookup.any_i` is given class
`PMC_CLASS_UCP` (9), and `pm_iap_config` does not stay zero: it receives the
event select 0x34, the unit mask 0x88, the user and kernel bits and the
interrupt bit, as a programmable event would. -/
theorem pmcallocate_uncore_config_populated :
    classify (pmu_alias_get "unc_cbo_cache_lookup.any_i".toList) = CounterClass.Uncore ∧
    catalog_lookup sample_env (pmu_alias_get "unc_cbo_cache_lookup.any_i".toList) =
      some (sample_unc_cbo, 2) ∧
    pmc_pmu_pmcallocate hwpmc sample_env "unc_cbo_cache_lookup.any_i".toList sample_pm =
      Run.ret (0, { pm_caps := 0x61, pm_class := 9, pm_ev := 4, pm_iap_config := 0x138834,
                    pm_iap_rsp := 0, pm_iaf_flags := 0 }) ∧
    hwpmc.PMC_CLASS_UCP = 9 ∧ (0x138834 : Nat) ≠ 0 := by
  decide

/-- C6, amended: an event classified uncore, found in the catalog with a
descriptor that parses, is encoded with return code 0 and class
`PMC_CLASS_UCP`; the capabilities gain read and write only; `pm_iap_rsp` and
`pm_iap_config` are filled from the parsed descriptor exactly as for a
programmable event. The interrupt capability is assumed to share no bit with
read and write. -/
theorem pmcallocate_uncore_record (K : Consts) (env : Env) (event_name : CStr)
    (pm : pmc_op_pmcallocate) (pe : pmu_event) (idx : Nat) (descriptor : CStr)
    (ped : pmu_event_desc) (out : List CStr)
    (hcaps : (K.PMC_CAP_READ ||| K.PMC_CAP_WRITE) &&& K.PMC_CAP_INTERRUPT = 0)
    (hfind : catalog_lookup env (pmu_alias_get event_name) = some (pe, idx))
    (hev : pe.event = some descriptor)
    (hparse : pmu_parse_event env.toParseEnv pmu_event_desc.zero descriptor =
      Run.ret (0, ped, out))
    (hclass : classify (pmu_alias_get event_name) = CounterClass.Uncore) :
    ∃ pm1, pmc_pmu_pmcallocate K env event_name pm = Run.ret (0, pm1) ∧
      pm1.pm_class = K.PMC_CLASS_UCP ∧
      pm1.pm_caps = pm.pm_caps ||| K.PMC_CAP_READ ||| K.PMC_CAP_WRITE ∧
      pm1.pm_iap_rsp = ped.ped_offcore_rsp ∧
      pm1.pm_iap_config = spec_iap_config K ped pm.pm_caps := by
  unfold classify at hclass
  by_cases hf : (fixed_mode_loop (pmu_alias_get event_name) fixed_mode_cntrs 0 false).2 = true
  · rw [if_pos hf] at hclass; exact absurd hclass (by decide)
  · by_cases hu : strcasestr (pmu_alias_get event_name) "UNC_".toList = some 0 ∨
        (strcasestr (pmu_alias_get event_name) "uncore".toList).isSome
    · rw [pmcallocate_of_lookup K env event_name pm pe idx descriptor ped out hfind hev hparse,
        if_neg hf]
      obtain ⟨pm1, h0, hcl, hcp, -, hrsp, -, hcfg⟩ :=
        pmcallocate_programmable_fields K (pmu_alias_get event_name) 4 ped
          (pmcallocate_entry K pm) rfl
      rw [if_pos hu] at hcl hcp
      have hcp2 : pm1.pm_caps = pm.pm_caps ||| (K.PMC_CAP_READ ||| K.PMC_CAP_WRITE) := by
        rw [hcp]; rfl
      refine ⟨pm1, h0, hcl, ?_, hrsp, ?_⟩
      · rw [hcp2]; ac_rfl
      · rw [hcfg, hcp2]
        unfold spec_iap_config
        rw [lor_land_of_disjoint _ _ _ hcaps]
    · rw [if_neg hf, if_neg hu] at hclass; exact absurd hclass (by decide)

/-- C6 amended, at `unc_cbo_cache_lookup.any_i` on the sample host. -/
theorem pmcallocate_uncore_record_witness :
    classify (pmu_alias_get "unc_cbo_cache_lookup.any_i".toList) = CounterClass.Uncore ∧
    ∃ pm1, pmc_pmu_pmcallocate hwpmc sample_env "unc_cbo_cache_lookup.any_i".toList
        sample_pm = Run.ret (0, pm1) ∧
      pm1.pm_class = hwpmc.PMC_CLASS_UCP ∧
      pm1.pm_caps = sample_pm.pm_caps ||| hwpmc.PMC_CAP_READ ||| hwpmc.PMC_CAP_WRITE ∧
      pm1.pm_iap_rsp = 0 ∧
      pm1.pm_iap_config =
        spec_iap_config hwpmc
          { pmu_event_desc.zero with ped_event := 0x34, ped_umask := 0x88 }
          sample_pm.pm_caps :=
  ⟨by decide,
    pmcallocate_uncore_record hwpmc sample_env "unc_cbo_cache_lookup.any_i".toList sample_pm
      sample_unc_cbo 2 "event=0x34,umask=0x88".toList
      { pmu_event_desc.zero with ped_event := 0x34, ped_umask := 0x88 } []
      (by decide) (by decide) (by decide) (by decide) (by decide)⟩

/-- C7, as stated, fails: in `umask=0x100` the value read in base 16 is 256,
but the 8-bit field `ped_umask` holds 0 after the call. -/
theorem pmu_parse_event_value_exceeds_field :
    join_tokens ([("umask".toList, "0x100".toList)].map kv_token) = "umask=0x100".toList ∧
    spec_field "umask".toList 16 [("umask".toList, "0x100".toList)] = 256 ∧
    pmu_parse_event ⟨none, true⟩ pmu_event_desc.zero "umask=0x100".toList =
      Run.ret (0, pmu_event_desc.zero, []) ∧
    pmu_event_desc.zero.ped_umask = 0 := by
  decide

/-- C7, amended: for a descriptor made of one or more `key=value` tokens
joined by commas (no comma or `=` in a key, no comma in a value) and with
memory for `strdup`, `pmu_parse_event` returns 0 and every field holds the
value of the last token for its key, read by `strtol` in the key's fixed base
(16 for umask, event, offcore_rsp, frontend, ldlat, fc_mask, ch_mask, config1;
10 for period, any, cmask, inv, edge) and reduced to the width of the field
(8, 32 or 64 bits); a field whose key does not occur is zero. -/
theorem pmu_parse_event_key_value_pairs (env : ParseEnv) (ped : pmu_event_desc)
    (kvs : List (CStr × CStr)) (hmem : env.strdup_ok = true) (hne : kvs ≠ [])
    (hwf : ∀ kv ∈ kvs, ',' ∉ kv.1 ∧ '=' ∉ kv.1 ∧ ',' ∉ kv.2) :
    ∃ out, pmu_parse_event env ped (join_tokens (kvs.map kv_token)) =
      Run.ret (0, spec_parsed kvs, out) := by
  have htok : strsep_all ',' (join_tokens (kvs.map kv_token)) = kvs.map kv_token := by
    apply strsep_all_join
    · simpa using hne
    · intro t ht
      obtain ⟨kv, hkv, rfl⟩ := List.mem_map.mp ht
      exact kv_token_no_comma kv (hwf kv hkv).1 (hwf kv hkv).2.2
  obtain ⟨out, hloop⟩ := pmu_parse_loop_pairs env kvs (fun kv hkv => (hwf kv hkv).2.1)
    ⟨pmu_event_desc.zero, []⟩
  refine ⟨out, ?_⟩
  unfold pmu_parse_event
  rw [if_neg (by simp [hmem]), htok, hloop, foldl_set_field_zero]
  rfl

/-- C7, at the descriptor `event=0x2e,umask=0x41,cmask=1`: it parses to event
0x2e, umask 0x41, cmask 1 and zero elsewhere. -/
theorem pmu_parse_event_key_value_pairs_witness :
    join_tokens (sample_pairs.map kv_token) = "event=0x2e,umask=0x41,cmask=1".toList ∧
    spec_parsed sample_pairs =
      { pmu_event_desc.zero with ped_event := 0x2e, ped_umask := 0x41, ped_cmask := 1 } ∧
    ∃ out, pmu_parse_event ⟨none, true⟩ pmu_event_desc.zero
        (join_tokens (sample_pairs.map kv_token)) =
      Run.ret (0, spec_parsed sample_pairs, out) :=
  ⟨by decide, by decide,
    pmu_parse_event_key_value_pairs ⟨none, true⟩ pmu_event_desc.zero sample_pairs rfl
      (by decide) (by decide)⟩

/-- C8: a token with an empty key does not abort the call. The descriptors
`=5`, the empty string and `event=0x2e,,umask=1` all return 0, the empty key
being passed over like an unknown one; and no call of `pmu_parse_event`
aborts at all, since `strsep` on a non-null token never returns `NULL`. -/
theorem pmu_parse_event_empty_key_returns :
    pmu_parse_event ⟨none, true⟩ pmu_event_desc.zero "=5".toList =
      Run.ret (0, pmu_event_desc.zero, []) ∧
    pmu_parse_event ⟨none, true⟩ pmu_event_desc.zero "".toList =
      Run.ret (0, pmu_event_desc.zero, []) ∧
    pmu_parse_event ⟨none, true⟩ pmu_event_desc.zero "event=0x2e,,umask=1".toList =
      Run.ret (0, { pmu_event_desc.zero with ped_event := 0x2e, ped_umask := 1 }, []) ∧
    ∀ (env : ParseEnv) (ped : pmu_event_desc) (d : CStr),
      pmu_parse_event env ped d ≠ Run.abort :=
  ⟨by decide, by decide, by decide, pmu_parse_event_no_abort⟩

/-- C9: a recognised key without `=value` is not tolerated. For the
descriptors `umask` and `event=0x2e,edge`, and for each of the thirteen
recognised keys standing alone, `strtol` is called on a null `value` and the
process dies; only an unrecognised key without value, as in
`event=0x2e,verbose`, is passed over. -/
theorem pmu_parse_event_missing_value_faults :
    pmu_parse_event ⟨none, true⟩ pmu_event_desc.zero "umask".toList = Run.fault ∧
    pmu_parse_event ⟨none, true⟩ pmu_event_desc.zero "event=0x2e,edge".toList = Run.fault ∧
    (∀ key ∈ recognised_keys,
      pmu_parse_event ⟨none, true⟩ pmu_event_desc.zero key = Run.fault) ∧
    pmu_parse_event ⟨some "true".toList, true⟩ pmu_event_desc.zero
        "event=0x2e,verbose".toList =
      Run.ret (0, { pmu_event_desc.zero with ped_event := 0x2e }, []) :=
  ⟨by decide, by decide, by decide, by decide⟩

/-- C10: a token without comma whose key is none of the thirteen recognised
keys changes neither the return code nor the descriptor, wherever it is
inserted (between two tokens, in front, at the end) and whatever `PMUDEBUG` is
set to in either call; and the value of `PMUDEBUG` alone never changes the
return code or the descriptor. -/
theorem pmu_parse_event_unrecognised_key_ignored (strdup_ok : Bool)
    (debug1 debug2 : Option CStr) (ped : pmu_event_desc) (d1 d2 tok : CStr)
    (hcomma : ',' ∉ tok) (hkey : (strsep_scan '=' tok).1 ∉ recognised_keys) :
    parse_result ⟨debug1, strdup_ok⟩ ped (d1 ++ ',' :: (tok ++ ',' :: d2)) =
        parse_result ⟨debug2, strdup_ok⟩ ped (d1 ++ ',' :: d2) ∧
      parse_result ⟨debug1, strdup_ok⟩ ped (tok ++ ',' :: d2) =
        parse_result ⟨debug2, strdup_ok⟩ ped d2 ∧
      parse_result ⟨debug1, strdup_ok⟩ ped (d1 ++ ',' :: tok) =
        parse_result ⟨debug2, strdup_ok⟩ ped d1 ∧
      parse_result ⟨debug1, strdup_ok⟩ ped d1 = parse_result ⟨debug2, strdup_ok⟩ ped d1 := by
  have htok := strsep_all_single ',' tok hcomma
  simp only [parse_result_eq, strsep_all_append, htok]
  cases strdup_ok
  · simp
  · simp only [Bool.true_eq_false, if_false]
    refine ⟨?_, ?_, ?_, ?_⟩
    · rw [List.singleton_append,
        pmu_parse_loop_insert ⟨debug1, true⟩ ⟨debug2, true⟩ _ _ tok hkey _ _ rfl]
    · rw [List.singleton_append]
      have := pmu_parse_loop_insert ⟨debug1, true⟩ ⟨debug2, true⟩ [] (strsep_all ',' d2) tok hkey
        ⟨pmu_event_desc.zero, []⟩ ⟨pmu_event_desc.zero, []⟩ rfl
      simp only [List.nil_append] at this
      rw [this]
    · have := pmu_parse_loop_insert ⟨debug1, true⟩ ⟨debug2, true⟩ (strsep_all ',' d1) [] tok hkey
        ⟨pmu_event_desc.zero, []⟩ ⟨pmu_event_desc.zero, []⟩ rfl
      simp only [List.append_nil] at this
      rw [this]
    · rw [pmu_parse_loop_ped_only ⟨debug1, true⟩ ⟨debug2, true⟩ _ _ _ rfl]

/-- C10, at the token `foo=1` put between `event=0x2e` and `umask=0x41`, in
front of `umask=0x41` and after `event=0x2e`, with `PMUDEBUG=true` in the
first call and `PMUDEBUG` unset in the second. -/
theorem pmu_parse_event_unrecognised_key_ignored_witness :
    ',' ∉ "foo=1".toList ∧
    (strsep_scan '=' "foo=1".toList).1 ∉ recognised_keys ∧
    (parse_result ⟨some "true".toList, true⟩ pmu_event_desc.zero
        ("event=0x2e".toList ++ ',' :: ("foo=1".toList ++ ',' :: "umask=0x41".toList)) =
      parse_result ⟨none, true⟩ pmu_event_desc.zero
        ("event=0x2e".toList ++ ',' :: "umask=0x41".toList) ∧
    parse_result ⟨some "true".toList, true⟩ pmu_event_desc.zero
        ("foo=1".toList ++ ',' :: "umask=0x41".toList) =
      parse_result ⟨none, true⟩ pmu_event_desc.zero "umask=0x41".toList ∧
    parse_result ⟨some "true".toList, true⟩ pmu_event_desc.zero
        ("event=0x2e".toList ++ ',' :: "foo=1".toList) =
      parse_result ⟨none, true⟩ pmu_event_desc.zero "event=0x2e".toList ∧
    parse_result ⟨some "true".toList, true⟩ pmu_event_desc.zero "event=0x2e".toList =
      parse_result ⟨none, true⟩ pmu_event_desc.zero "event=0x2e".toList) :=
  ⟨by decide, by decide,
    pmu_parse_event_unrecognised_key_ignored true (some "true".toList) none
      pmu_event_desc.zero "event=0x2e".toList "umask=0x41".toList "foo=1".toList
      (by decide) (by decide)⟩

/-- C11: a name that equals, letter case ignored, the alias of an entry of
`pmu_alias_table` is resolved to that entry's canonical name, and a name that
matches no alias comes back unchanged; `pmu_alias_get` is a total function
with a string for every input. -/
theorem pmu_alias_get_resolves (n : CStr) :
    (∀ pa ∈ pmu_alias_table, strcasecmp n pa.pa_alias = 0 → pmu_alias_get n = pa.pa_name) ∧
    ((∀ pa ∈ pmu_alias_table, strcasecmp n pa.pa_alias ≠ 0) → pmu_alias_get n = n) :=
  ⟨fun pa hmem hm =>
      pmu_alias_scan_of_match n pmu_alias_table pa hmem hm
        (pmu_alias_table_unambiguous pa hmem),
    fun h => pmu_alias_scan_of_no_match n pmu_alias_table h⟩

/-- C11, at `llc_misses` and `Instructions`, which match aliases up to letter
case, and at `mem_inst_retired.all_loads`, which matches none. -/
theorem pmu_alias_get_resolves_witness :
    pmu_alias_get "llc_misses".toList = "LONGEST_LAT_CACHE.MISS".toList ∧
    pmu_alias_get "Instructions".toList = "inst-retired.any_p".toList ∧
    pmu_alias_get "mem_inst_retired.all_loads".toList = "mem_inst_retired.all_loads".toList :=
  ⟨(pmu_alias_get_resolves "llc_misses".toList).1
      ⟨"LLC_MISSES".toList, "LONGEST_LAT_CACHE.MISS".toList⟩ (by decide) (by decide),
    (pmu_alias_get_resolves "Instructions".toList).1
      ⟨"instructions".toList, "inst-retired.any_p".toList⟩ (by decide) (by decide),
    (pmu_alias_get_resolves "mem_inst_retired.all_loads".toList).2 (by decide)⟩

/-- C12, as stated, fails: for `topdown-total-slots`, whose record has no
descriptor, the call returns `ENOENT`, but the caller's record is not as it
was on entry: `pm_caps` went from 0x1 to 0x61 and the `pm_iap` member from 5
to 0. -/
theorem pmcallocate_null_descriptor_changes_record :
    catalog_lookup sample_env2 (pmu_alias_get "topdown-total-slots".toList) =
      some (sample_no_descriptor, 1) ∧
    sample_no_descriptor.event = none ∧
    sample_pm = { pm_caps := 0x1, pm_class := 0, pm_ev := 77, pm_iap_config := 5,
                  pm_iap_rsp := 5, pm_iaf_flags := 5 } ∧
    pmc_pmu_pmcallocate hwpmc sample_env2 "topdown-total-slots".toList sample_pm =
      Run.ret (ENOENT, { pm_caps := 0x61, pm_class := 0, pm_ev := 77, pm_iap_config := 0,
                         pm_iap_rsp := 0, pm_iaf_flags := 0 }) := by
  decide

/-- C12, amended: when the resolved record has a null descriptor the call
returns `ENOENT` and leaves `pm_class` and `pm_ev` as they were, but it has
already added `PMC_CAP_READ | PMC_CAP_WRITE` to `pm_caps` and cleared the
`pm_iap` member of `pm_md`. -/
theorem pmcallocate_null_descriptor (K : Consts) (env : Env) (event_name : CStr)
    (pm : pmc_op_pmcallocate) (pe : pmu_event) (idx : Nat)
    (hfind : catalog_lookup env (pmu_alias_get event_name) = some (pe, idx))
    (hev : pe.event = none) :
    ∃ pm1, pmc_pmu_pmcallocate K env event_name pm = Run.ret (ENOENT, pm1) ∧
      pm1.pm_class = pm.pm_class ∧ pm1.pm_ev = pm.pm_ev ∧
      pm1.pm_caps = pm.pm_caps ||| K.PMC_CAP_READ ||| K.PMC_CAP_WRITE ∧
      pm1.pm_iap_config = 0 ∧ pm1.pm_iap_rsp = 0 ∧ pm1.pm_iaf_flags = 0 := by
  refine ⟨pmcallocate_entry K pm, ?_, rfl, rfl, ?_, rfl, rfl, rfl⟩
  · rw [pmcallocate_found K env event_name pm pe idx hfind, hev]
  · simp only [pmcallocate_entry]; ac_rfl

/-- C12 amended, at `topdown-total-slots` on the second sample host. -/
theorem pmcallocate_null_descriptor_witness :
    catalog_lookup sample_env2 (pmu_alias_get "topdown-total-slots".toList) =
      some (sample_no_descriptor, 1) ∧
    ∃ pm1, pmc_pmu_pmcallocate hwpmc sample_env2 "topdown-total-slots".toList sample_pm =
        Run.ret (ENOENT, pm1) ∧
      pm1.pm_class = sample_pm.pm_class ∧ pm1.pm_ev = sample_pm.pm_ev ∧
      pm1.pm_caps = sample_pm.pm_caps ||| hwpmc.PMC_CAP_READ ||| hwpmc.PMC_CAP_WRITE ∧
      pm1.pm_iap_config = 0 ∧ pm1.pm_iap_rsp = 0 ∧ pm1.pm_iaf_flags = 0 :=
  ⟨by decide,
    pmcallocate_null_descriptor hwpmc sample_env2 "topdown-total-slots".toList sample_pm
      sample_no_descriptor 1 (by decide) (by decide)⟩

/-- C13: every call either returns, with code 0 or `ENOENT` and with both
`PMC_CAP_READ` and `PMC_CAP_WRITE` set in `pm_caps`, or dies reading through a
null pointer and so does not return. -/
theorem pmcallocate_sets_read_write (K : Consts) (env : Env) (event_name : CStr)
    (pm : pmc_op_pmcallocate) :
    (∃ rc pm1, pmc_pmu_pmcallocate K env event_name pm = Run.ret (rc, pm1) ∧
      (rc = 0 ∨ rc = ENOENT) ∧
      pm1.pm_caps &&& K.PMC_CAP_READ = K.PMC_CAP_READ ∧
      pm1.pm_caps &&& K.PMC_CAP_WRITE = K.PMC_CAP_WRITE) ∨
    pmc_pmu_pmcallocate K env event_name pm = Run.fault := by
  have hb := caps_keep_bit pm.pm_caps K.PMC_CAP_READ K.PMC_CAP_WRITE K.PMC_CAP_QUALIFIER
  have hentry : ∀ rc, rc = ENOENT →
      ∃ rc1 pm1, Run.ret (rc, pmcallocate_entry K pm) = Run.ret (rc1, pm1) ∧
        (rc1 = 0 ∨ rc1 = ENOENT) ∧
        pm1.pm_caps &&& K.PMC_CAP_READ = K.PMC_CAP_READ ∧
        pm1.pm_caps &&& K.PMC_CAP_WRITE = K.PMC_CAP_WRITE :=
    fun rc h => ⟨rc, _, rfl, Or.inr h, hb.1, hb.2.1⟩
  cases hl : catalog_lookup env (pmu_alias_get event_name) with
  | none =>
    rw [pmcallocate_not_found K env event_name pm hl]
    exact Or.inl (hentry _ rfl)
  | some r =>
    obtain ⟨pe, idx⟩ := r
    rw [pmcallocate_found K env event_name pm pe idx hl]
    cases hev : pe.event with
    | none => exact Or.inl (hentry _ rfl)
    | some descriptor =>
      simp only []
      cases hp : pmu_parse_event env.toParseEnv pmu_event_desc.zero descriptor with
      | abort => exact absurd hp (pmu_parse_event_no_abort _ _ _)
      | fault => exact Or.inr rfl
      | ret r =>
        simp only [Run.bind]
        by_cases hrc : r.1 ≠ 0
        · rw [if_pos hrc]; exact Or.inl (hentry _ rfl)
        · rw [if_neg hrc]
          by_cases hf :
              (fixed_mode_loop (pmu_alias_get event_name) fixed_mode_cntrs 0 false).2 = true
          · rw [if_pos hf]
            cases hd : pe.desc with
            | none =>
              right
              unfold pmcallocate_fixed
              simp only [hd]
            | some desc =>
              obtain ⟨pm1, h0, -, hcp, -, -⟩ :=
                pmcallocate_fixed_fields K pe r.2.1 (pmcallocate_entry K pm) desc hd rfl
              exact Or.inl ⟨0, pm1, h0, Or.inl rfl, by rw [hcp]; exact hb.1,
                by rw [hcp]; exact hb.2.1⟩
          · rw [if_neg hf]
            obtain ⟨pm1, h0, -, hcp, -⟩ :=
              pmcallocate_programmable_fields K (pmu_alias_get event_name) 4 r.2.1
                (pmcallocate_entry K pm) rfl
            refine Or.inl ⟨0, pm1, h0, Or.inl rfl, ?_, ?_⟩
            · rw [hcp]; split
              · exact hb.1
              · exact hb.2.2.1
            · rw [hcp]; split
              · exact hb.2.1
              · exact hb.2.2.2

/-- C13, at a name that is not in the table (`ENOENT`) and at one that is
encoded (0): both calls return with the two capabilities set. -/
theorem pmcallocate_sets_read_write_witness :
    (∃ rc pm1, pmc_pmu_pmcallocate hwpmc sample_env "nonexistent_event".toList sample_pm =
        Run.ret (rc, pm1) ∧
      (rc = 0 ∨ rc = ENOENT) ∧
      pm1.pm_caps &&& hwpmc.PMC_CAP_READ = hwpmc.PMC_CAP_READ ∧
      pm1.pm_caps &&& hwpmc.PMC_CAP_WRITE = hwpmc.PMC_CAP_WRITE) ∧
    (∃ rc pm1, pmc_pmu_pmcallocate hwpmc sample_env "LLC_MISSES".toList sample_pm =
        Run.ret (rc, pm1) ∧
      (rc = 0 ∨ rc = ENOENT) ∧
      pm1.pm_caps &&& hwpmc.PMC_CAP_READ = hwpmc.PMC_CAP_READ ∧
      pm1.pm_caps &&& hwpmc.PMC_CAP_WRITE = hwpmc.PMC_CAP_WRITE) :=
  ⟨(pmcallocate_sets_read_write hwpmc sample_env "nonexistent_event".toList
      sample_pm).resolve_right (by decide),
    (pmcallocate_sets_read_write hwpmc sample_env "LLC_MISSES".toList
      sample_pm).resolve_right (by decide)⟩

/-- C14: for a programmable event the `IAP_EDGE` bit of `pm_iap_config` is set
exactly when the parsed `edge` or the parsed `inv` is nonzero; and two
programmable events whose parsed descriptors differ only in `edge=0,inv=1`
against `edge=1,inv=0` get the same config word. `IAP_EDGE` is assumed to be a
bit of its own in the config word. -/
theorem pmcallocate_edge_bit (K : Consts) (env : Env) (pm : pmc_op_pmcallocate)
    (name1 name2 : CStr) (pe1 pe2 : pmu_event) (idx1 idx2 : Nat) (d1 d2 : CStr)
    (ped1 ped2 : pmu_event_desc) (out1 out2 : List CStr)
    (hsep : edge_bit_separate K)
    (hfind1 : catalog_lookup env (pmu_alias_get name1) = some (pe1, idx1))
    (hev1 : pe1.event = some d1)
    (hparse1 : pmu_parse_event env.toParseEnv pmu_event_desc.zero d1 = Run.ret (0, ped1, out1))
    (hclass1 : classify (pmu_alias_get name1) = CounterClass.Programmable)
    (hfind2 : catalog_lookup env (pmu_alias_get name2) = some (pe2, idx2))
    (hev2 : pe2.event = some d2)
    (hparse2 : pmu_parse_event env.toParseEnv pmu_event_desc.zero d2 = Run.ret (0, ped2, out2))
    (hclass2 : classify (pmu_alias_get name2) = CounterClass.Programmable) :
    ∃ pm1 pm2, pmc_pmu_pmcallocate K env name1 pm = Run.ret (0, pm1) ∧
      pmc_pmu_pmcallocate K env name2 pm = Run.ret (0, pm2) ∧
      (pm1.pm_iap_config &&& K.IAP_EDGE = K.IAP_EDGE ↔
        (ped1.ped_edge ≠ 0 ∨ ped1.ped_inv ≠ 0)) ∧
      (ped1.ped_edge = 0 ∧ ped1.ped_inv = 1 ∧ ped2.ped_edge = 1 ∧ ped2.ped_inv = 0 ∧
          { ped1 with ped_edge := 0, ped_inv := 0 } = { ped2 with ped_edge := 0, ped_inv := 0 } →
        pm1.pm_iap_config = pm2.pm_iap_config) := by
  have hprog : ∀ n, classify n = CounterClass.Programmable →
      ¬ (fixed_mode_loop n fixed_mode_cntrs 0 false).2 = true ∧
      ¬ (strcasestr n "UNC_".toList = some 0 ∨ (strcasestr n "uncore".toList).isSome) := by
    intro n hc
    unfold classify at hc
    by_cases hf : (fixed_mode_loop n fixed_mode_cntrs 0 false).2 = true
    · rw [if_pos hf] at hc; exact absurd hc (by decide)
    · by_cases hu : strcasestr n "UNC_".toList = some 0 ∨ (strcasestr n "uncore".toList).isSome
      · rw [if_neg hf, if_pos hu] at hc; exact absurd hc (by decide)
      · exact ⟨hf, hu⟩
  obtain ⟨hf1, hu1⟩ := hprog _ hclass1
  obtain ⟨hf2, hu2⟩ := hprog _ hclass2
  rw [pmcallocate_of_lookup K env name1 pm pe1 idx1 d1 ped1 out1 hfind1 hev1 hparse1, if_neg hf1,
    pmcallocate_of_lookup K env name2 pm pe2 idx2 d2 ped2 out2 hfind2 hev2 hparse2, if_neg hf2]
  obtain ⟨pm1, h1, -, hcp1, -, -, -, hcfg1⟩ :=
    pmcallocate_programmable_fields K (pmu_alias_get name1) 4 ped1 (pmcallocate_entry K pm) rfl
  obtain ⟨pm2, h2, -, hcp2, -, -, -, hcfg2⟩ :=
    pmcallocate_programmable_fields K (pmu_alias_get name2) 4 ped2 (pmcallocate_entry K pm) rfl
  rw [if_neg hu1] at hcp1
  rw [if_neg hu2] at hcp2
  refine ⟨pm1, pm2, h1, h2, ?_, ?_⟩
  · rw [hcfg1, spec_iap_config_edge K ped1 _ hsep]
    by_cases hc : ped1.ped_edge ≠ 0 ∨ ped1.ped_inv ≠ 0
    · rw [if_pos hc]; exact ⟨fun _ => hc, fun _ => rfl⟩
    · rw [if_neg hc]; exact ⟨fun h => absurd h.symm hsep.1, fun h => absurd h hc⟩
  · rintro ⟨he1, hi1, he2, hi2, hrest⟩
    simp only [pmu_event_desc.mk.injEq] at hrest
    obtain ⟨-, -, hev, -, -, -, hum, hcm, han, -⟩ := hrest
    rw [hcfg1, hcfg2, hcp1, hcp2]
    unfold spec_iap_config
    rw [hev, hum, hcm, han, he1, hi1, he2, hi2]
    simp

/-- C14, at `l2_rqsts.miss_inv` (`edge=0,inv=1`) and `l2_rqsts.miss_edge`
(`edge=1,inv=0`) on the second sample host. -/
theorem pmcallocate_edge_bit_witness :
    edge_bit_separate hwpmc ∧
    classify (pmu_alias_get "l2_rqsts.miss_inv".toList) = CounterClass.Programmable ∧
    classify (pmu_alias_get "l2_rqsts.miss_edge".toList) = CounterClass.Programmable ∧
    ∃ pm1 pm2,
      pmc_pmu_pmcallocate hwpmc sample_env2 "l2_rqsts.miss_inv".toList sample_pm =
        Run.ret (0, pm1) ∧
      pmc_pmu_pmcallocate hwpmc sample_env2 "l2_rqsts.miss_edge".toList sample_pm =
        Run.ret (0, pm2) ∧
      (pm1.pm_iap_config &&& hwpmc.IAP_EDGE = hwpmc.IAP_EDGE ↔
        ((0 : Nat) ≠ 0 ∨ (1 : Nat) ≠ 0)) ∧
      pm1.pm_iap_config = pm2.pm_iap_config := by
  obtain ⟨pm1, pm2, h1, h2, hbit, hsame⟩ :=
    pmcallocate_edge_bit hwpmc sample_env2 sample_pm "l2_rqsts.miss_inv".toList
      "l2_rqsts.miss_edge".toList sample_inv_only sample_edge_only 2 3
      "event=0x24,umask=0x3f,edge=0,inv=1".toList "event=0x24,umask=0x3f,edge=1,inv=0".toList
      { pmu_event_desc.zero with ped_event := 0x24, ped_umask := 0x3f, ped_inv := 1 }
      { pmu_event_desc.zero with ped_event := 0x24, ped_umask := 0x3f, ped_edge := 1 } [] []
      hwpmc_edge_bit_separate (by decide) (by decide) (by decide) (by decide)
      (by decide) (by decide) (by decide) (by decide)
  exact ⟨hwpmc_edge_bit_separate, by decide, by decide, pm1, pm2, h1, h2, hbit,
    hsame (by decide)⟩

/-- C15, as stated, fails, in two ways. (a) `instructions` resolves to
`inst-retired.any_p`, which the second sample table holds with a descriptor,
but that name is not in `fixed_mode_cntrs`: the call gives class
`PMC_CLASS_IAP` (7), not `PMC_CLASS_IAF` (6), and the word it fills is the
programmable config word `pm_iap_config`. (b) The table `sample_table_shadowed`
contains the same entry, preceded by a record of the same name up to letter
case that has no descriptor: the lookup stops at that record and the call
returns `ENOENT` without classifying the event. -/
theorem pmcallocate_instructions_not_fixed :
    (pmu_alias_get "instructions".toList = "inst-retired.any_p".toList ∧
      catalog_lookup sample_env2 (pmu_alias_get "instructions".toList) =
        some (sample_inst_any_p, 0) ∧
      sample_inst_any_p.name = some "inst-retired.any_p".toList ∧
      sample_inst_any_p.event = some "event=0xc0,any=1,period=2000003".toList ∧
      "inst-retired.any_p".toList ∉ fixed_mode_cntrs ∧
      (pmc_pmu_pmcallocate hwpmc sample_env2 "instructions".toList sample_pm).map
        (fun r => (r.1, r.2.pm_class, r.2.pm_iap_config)) = Run.ret (0, 7, 0x3300c0) ∧
      hwpmc.PMC_CLASS_IAF = 6 ∧ hwpmc.PMC_CLASS_IAP = 7) ∧
    (pmu_events_map_get sample_env_shadowed =
        some { cpuid := "GenuineIntel-6-8E".toList, table := sample_table_shadowed } ∧
      sample_inst_any_p ∈ sample_table_shadowed ∧
      catalog_lookup sample_env_shadowed (pmu_alias_get "instructions".toList) =
        some (sample_inst_any_p_heading, 0) ∧
      sample_inst_any_p_heading.event = none ∧
      (pmc_pmu_pmcallocate hwpmc sample_env_shadowed "instructions".toList sample_pm).map
        (fun r => (r.1, r.2.pm_class)) = Run.ret (ENOENT, sample_pm.pm_class) ∧
      ENOENT = 2 ∧ sample_pm.pm_class = 0) :=
  ⟨⟨by decide, by decide, by decide, by decide, by decide, by decide, by decide, by decide⟩,
    ⟨by decide, by decide, by decide, by decide, by decide, by decide, by decide⟩⟩

/-- C15, amended: for every event table in which the lookup of
`inst-retired.any_p` (the first record whose name matches with letter case
ignored, or the record its alias-of field names) gives a record with a
descriptor on which `pmu_parse_event` returns 0, `instructions` resolves
through the alias table to that name, the call returns 0 with class
`PMC_CLASS_IAP`, and the programmable config word has the user and kernel bits
and the any-thread bit according to the descriptor's `any`, as for every
programmable event. The interrupt capability is assumed to share no bit with
read, write and qualifier. -/
theorem pmcallocate_instructions (K : Consts) (env : Env) (pm : pmc_op_pmcallocate)
    (pe : pmu_event) (idx : Nat) (descriptor : CStr) (ped : pmu_event_desc)
    (out : List CStr)
    (hcaps : (K.PMC_CAP_READ ||| K.PMC_CAP_WRITE ||| K.PMC_CAP_QUALIFIER) &&&
      K.PMC_CAP_INTERRUPT = 0)
    (hfind : catalog_lookup env "inst-retired.any_p".toList = some (pe, idx))
    (hev : pe.event = some descriptor)
    (hparse : pmu_parse_event env.toParseEnv pmu_event_desc.zero descriptor =
      Run.ret (0, ped, out)) :
    pmu_alias_get "instructions".toList = "inst-retired.any_p".toList ∧
    ∃ pm1, pmc_pmu_pmcallocate K env "instructions".toList pm = Run.ret (0, pm1) ∧
      pm1.pm_class = K.PMC_CLASS_IAP ∧
      pm1.pm_iap_config = spec_iap_config K ped pm.pm_caps := by
  have ha : pmu_alias_get "instructions".toList = "inst-retired.any_p".toList := by decide
  refine ⟨ha, ?_⟩
  have hf : ¬ (fixed_mode_loop (pmu_alias_get "instructions".toList) fixed_mode_cntrs 0
      false).2 = true := by decide
  have hu : ¬ (strcasestr (pmu_alias_get "instructions".toList) "UNC_".toList = some 0 ∨
      (strcasestr (pmu_alias_get "instructions".toList) "uncore".toList).isSome) := by decide
  rw [pmcallocate_of_lookup K env "instructions".toList pm pe idx descriptor ped out
    (by rw [ha]; exact hfind) hev hparse, if_neg hf]
  obtain ⟨pm1, h0, hcl, hcp, -, -, -, hcfg⟩ :=
    pmcallocate_programmable_fields K (pmu_alias_get "instructions".toList) 4 ped
      (pmcallocate_entry K pm) rfl
  rw [if_neg hu] at hcl hcp
  have hcp2 : pm1.pm_caps =
      pm.pm_caps ||| (K.PMC_CAP_READ ||| K.PMC_CAP_WRITE ||| K.PMC_CAP_QUALIFIER) := by
    rw [hcp]; simp only [pmcallocate_entry]; ac_rfl
  refine ⟨pm1, h0, hcl, ?_⟩
  rw [hcfg, hcp2]
  unfold spec_iap_config
  simp only [lor_land_of_disjoint _ _ _ hcaps]

/-- C15 amended, on the second sample host. -/
theorem pmcallocate_instructions_witness :
    pmu_alias_get "instructions".toList = "inst-retired.any_p".toList ∧
    ∃ pm1, pmc_pmu_pmcallocate hwpmc sample_env2 "instructions".toList sample_pm =
        Run.ret (0, pm1) ∧
      pm1.pm_class = hwpmc.PMC_CLASS_IAP ∧
      pm1.pm_iap_config =
        spec_iap_config hwpmc
          { pmu_event_desc.zero with ped_event := 0xc0, ped_any := 1, ped_period := 2000003 }
          sample_pm.pm_caps :=
  pmcallocate_instructions hwpmc sample_env2 sample_pm sample_inst_any_p 0
    "event=0xc0,any=1,period=2000003".toList
    { pmu_event_desc.zero with ped_event := 0xc0, ped_any := 1, ped_period := 2000003 } []
    (by decide) (by decide) (by decide) (by decide)

/-- C16, as stated, fails: the first sample table has no record named
`UNC_CBO_CACHE_LOOKUP`, and the third sample host has no table at all; in both
the call returns `ENOENT` before any class is chosen and `pm_class` keeps the
caller's 0, not `PMC_CLASS_UCP` (9). -/
theorem pmcallocate_uncore_name_not_in_table :
    classify (pmu_alias_get "UNC_CBO_CACHE_LOOKUP".toList) = CounterClass.Uncore ∧
    catalog_lookup sample_env (pmu_alias_get "UNC_CBO_CACHE_LOOKUP".toList) = none ∧
    pmc_pmu_pmcallocate hwpmc sample_env "UNC_CBO_CACHE_LOOKUP".toList sample_pm =
      Run.ret (ENOENT, { pm_caps := 0x61, pm_class := 0, pm_ev := 77, pm_iap_config := 0,
                         pm_iap_rsp := 0, pm_iaf_flags := 0 }) ∧
    pmc_pmu_pmcallocate hwpmc sample_env_unknown_cpu "UNC_CBO_CACHE_LOOKUP".toList sample_pm =
      Run.ret (ENOENT, { pm_caps := 0x61, pm_class := 0, pm_ev := 77, pm_iap_config := 0,
                         pm_iap_rsp := 0, pm_iaf_flags := 0 }) ∧
    hwpmc.PMC_CLASS_UCP = 9 ∧ ENOENT = 2 := by
  decide

/-- C16, amended: for every event table in which `UNC_CBO_CACHE_LOOKUP` is
found with a descriptor that parses, the call returns 0 with `pm_class =
PMC_CLASS_UCP`, whatever the record contains: once the record is found the
class follows from the `UNC_` prefix alone. -/
theorem pmcallocate_unc_cbo_cache_lookup (K : Consts) (env : Env) (pm : pmc_op_pmcallocate)
    (pe : pmu_event) (idx : Nat) (descriptor : CStr) (ped : pmu_event_desc)
    (out : List CStr)
    (hfind : catalog_lookup env "UNC_CBO_CACHE_LOOKUP".toList = some (pe, idx))
    (hev : pe.event = some descriptor)
    (hparse : pmu_parse_event env.toParseEnv pmu_event_desc.zero descriptor =
      Run.ret (0, ped, out)) :
    ∃ pm1, pmc_pmu_pmcallocate K env "UNC_CBO_CACHE_LOOKUP".toList pm = Run.ret (0, pm1) ∧
      pm1.pm_class = K.PMC_CLASS_UCP := by
  have ha : pmu_alias_get "UNC_CBO_CACHE_LOOKUP".toList = "UNC_CBO_CACHE_LOOKUP".toList := by
    decide
  have hf : ¬ (fixed_mode_loop (pmu_alias_get "UNC_CBO_CACHE_LOOKUP".toList) fixed_mode_cntrs 0
      false).2 = true := by decide
  have hu : strcasestr (pmu_alias_get "UNC_CBO_CACHE_LOOKUP".toList) "UNC_".toList = some 0 ∨
      (strcasestr (pmu_alias_get "UNC_CBO_CACHE_LOOKUP".toList) "uncore".toList).isSome :=
    Or.inl (by decide)
  rw [pmcallocate_of_lookup K env "UNC_CBO_CACHE_LOOKUP".toList pm pe idx descriptor ped out
    (by rw [ha]; exact hfind) hev hparse, if_neg hf]
  obtain ⟨pm1, h0, hcl, -⟩ :=
    pmcallocate_programmable_fields K (pmu_alias_get "UNC_CBO_CACHE_LOOKUP".toList) 4 ped
      (pmcallocate_entry K pm) rfl
  rw [if_pos hu] at hcl
  exact ⟨pm1, h0, hcl⟩

/-- C16 amended, on the second sample host, whose table names the event in
lower case. -/
theorem pmcallocate_unc_cbo_cache_lookup_witness :
    ∃ pm1, pmc_pmu_pmcallocate hwpmc sample_env2 "UNC_CBO_CACHE_LOOKUP".toList sample_pm =
        Run.ret (0, pm1) ∧
      pm1.pm_class = hwpmc.PMC_CLASS_UCP :=
  pmcallocate_unc_cbo_cache_lookup hwpmc sample_env2 sample_pm sample_unc_lookup 8
    "event=0x34,umask=0x11".toList
    { pmu_event_desc.zero with ped_event := 0x34, ped_umask := 0x11 } []
    (by decide) (by decide) (by decide)

/-- C17: when `pmu_event_get` succeeds, the record returned sits at the
reported ordinal of the CPU's table (nameless records counted), its name
equals the requested one up to letter case, no record before it has such a
name, and `pmc_pmu_event_get_by_idx` at that ordinal returns the record's
name; at an ordinal at or past the end of the table the reverse lookup returns
`NULL`. -/
theorem pmu_event_get_first_match (env : Env) (event_name : CStr) (pe : pmu_event) (i : Nat)
    (h : pmu_event_get env event_name = some (pe, i)) :
    ∃ pme, pmu_events_map_get env = some pme ∧
      pme.table[i]? = some pe ∧
      (∃ nm, pe.name = some nm ∧ strcasecmp nm event_name = 0) ∧
      (∀ j pj nm, j < i → pme.table[j]? = some pj → pj.name = some nm →
        strcasecmp nm event_name ≠ 0) ∧
      pmc_pmu_event_get_by_idx env (i : Int) = pe.name ∧
      ∀ idx : Int, (table_length pme.table : Int) ≤ idx →
        pmc_pmu_event_get_by_idx env idx = none := by
  unfold pmu_event_get at h
  cases hm : pmu_events_map_get env with
  | none => simp [hm] at h
  | some pme =>
    simp only [hm] at h
    obtain ⟨-, hget, hnm, hearlier, hback⟩ := pmu_event_scan_spec event_name pe i pme.table 0 h
    refine ⟨pme, rfl, by simpa using hget, hnm, ?_, ?_, ?_⟩
    · intro j pj nm hj
      exact hearlier j pj nm (by omega)
    · unfold pmc_pmu_event_get_by_idx
      simp only [hm]
      exact hback
    · intro idx hidx
      unfold pmc_pmu_event_get_by_idx
      simp only [hm]
      exact event_get_by_idx_scan_past_end idx pme.table 0 (by simpa using hidx)

/-- C17, at `UNC_CBO_CACHE_LOOKUP` on the second sample host: found at ordinal
8, after a nameless record at ordinal 7. -/
theorem pmu_event_get_first_match_witness :
    pmu_event_get sample_env2 "UNC_CBO_CACHE_LOOKUP".toList = some (sample_unc_lookup, 8) ∧
    sample_table2[7]? = some sample_nameless ∧ sample_nameless.name = none ∧
    ∃ pme, pmu_events_map_get sample_env2 = some pme ∧
      pme.table[8]? = some sample_unc_lookup ∧
      (∃ nm, sample_unc_lookup.name = some nm ∧
        strcasecmp nm "UNC_CBO_CACHE_LOOKUP".toList = 0) ∧
      (∀ j pj nm, j < 8 → pme.table[j]? = some pj → pj.name = some nm →
        strcasecmp nm "UNC_CBO_CACHE_LOOKUP".toList ≠ 0) ∧
      pmc_pmu_event_get_by_idx sample_env2 ((8 : Nat) : Int) = sample_unc_lookup.name ∧
      ∀ idx : Int, (table_length pme.table : Int) ≤ idx →
        pmc_pmu_event_get_by_idx sample_env2 idx = none :=
  ⟨by decide, by decide, by decide,
    pmu_event_get_first_match sample_env2 "UNC_CBO_CACHE_LOOKUP".toList sample_unc_lookup 8
      (by decide)⟩

/-- C18: when the CPU key is unavailable or equals no partition's `cpuid`,
`pmu_events_map_get` returns `NULL`, `pmc_pmu_enabled` returns 0 and
`pmu_event_get` returns `NULL` for every name; and `pmc_pmu_enabled` returns 1
exactly when some partition's `cpuid` equals the key. -/
theorem pmu_events_map_get_no_partition (env : Env) :
    ((env.sysctl_cpuid = none ∨
        ∃ key, env.sysctl_cpuid = some key ∧ ∀ pme ∈ env.pmu_events_map, pme.cpuid ≠ key) →
      pmu_events_map_get env = none ∧ pmc_pmu_enabled env = 0 ∧
        ∀ event_name, pmu_event_get env event_name = none) ∧
    (pmc_pmu_enabled env = 1 ↔
      ∃ key, env.sysctl_cpuid = some key ∧ ∃ pme ∈ env.pmu_events_map, pme.cpuid = key) := by
  have hnone : pmu_events_map_get env = none ↔
      (env.sysctl_cpuid = none ∨
        ∃ key, env.sysctl_cpuid = some key ∧ ∀ pme ∈ env.pmu_events_map, pme.cpuid ≠ key) := by
    unfold pmu_events_map_get
    cases hk : env.sysctl_cpuid with
    | none => simp
    | some key => simp [pmu_events_map_scan_none_iff]
  constructor
  · intro h
    have hg := hnone.mpr h
    refine ⟨hg, ?_, ?_⟩
    · unfold pmc_pmu_enabled; simp [hg]
    · intro n; unfold pmu_event_get; simp [hg]
  · unfold pmc_pmu_enabled
    cases hg : pmu_events_map_get env with
    | none =>
      simp only [Option.isSome_none, Bool.false_eq_true, if_false, Nat.zero_ne_one, false_iff]
      rintro ⟨key, hk, pme, hmem, hc⟩
      rcases hnone.mp hg with h | ⟨key', hk', hall⟩
      · rw [h] at hk; exact absurd hk (by simp)
      · rw [hk'] at hk
        simp only [Option.some.injEq] at hk
        subst hk
        exact hall pme hmem hc
    | some pme =>
      simp only [Option.isSome_some, if_true, true_iff]
      by_contra hcon
      have : pmu_events_map_get env = none := by
        apply hnone.mpr
        cases hk : env.sysctl_cpuid with
        | none => exact Or.inl rfl
        | some key =>
          refine Or.inr ⟨key, rfl, ?_⟩
          intro p hp hc
          exact hcon ⟨key, hk, p, hp, hc⟩
      rw [this] at hg
      exact absurd hg (by simp)

/-- C18, at a host with an unknown CPU key and at the second sample host. -/
theorem pmu_events_map_get_no_partition_witness :
    (pmu_events_map_get sample_env_unknown_cpu = none ∧
      pmc_pmu_enabled sample_env_unknown_cpu = 0 ∧
      ∀ event_name, pmu_event_get sample_env_unknown_cpu event_name = none) ∧
    pmc_pmu_enabled sample_env2 = 1 :=
  ⟨(pmu_events_map_get_no_partition sample_env_unknown_cpu).1
      (Or.inr ⟨"AuthenticAMD-23-1".toList, rfl, by decide⟩),
    (pmu_events_map_get_no_partition sample_env2).2.mpr
      ⟨"GenuineIntel-6-55".toList, rfl,
        { cpuid := "GenuineIntel-6-55".toList, table := sample_table2 }, by decide, rfl⟩⟩

/-- C19: `pmc_pmu_sample_rate_get` does not return for every event name. On
the second sample host `br_inst_retired.far_branch` is found with the
descriptor `event=0xc4,umask=0x40,period`, whose last token names `period`
without a value: `pmu_parse_event` dies in `strtol(NULL, NULL, 10)`, so the
call gives neither `DEFAULT_SAMPLE_COUNT` nor a period, whereas
`nonexistent_event` gets the default and `instructions` its period. -/
theorem sample_rate_get_dies_on_bare_key :
    catalog_lookup sample_env2 (pmu_alias_get "br_inst_retired.far_branch".toList) =
      some (sample_bare_period, 4) ∧
    sample_bare_period.event = some "event=0xc4,umask=0x40,period".toList ∧
    pmu_parse_event sample_env2.toParseEnv pmu_event_desc.zero
      "event=0xc4,umask=0x40,period".toList = Run.fault ∧
    pmc_pmu_sample_rate_get hwpmc sample_env2 "br_inst_retired.far_branch".toList =
      Run.fault ∧
    pmc_pmu_sample_rate_get hwpmc sample_env2 "nonexistent_event".toList =
      Run.ret hwpmc.DEFAULT_SAMPLE_COUNT ∧
    pmc_pmu_sample_rate_get hwpmc sample_env2 "instructions".toList = Run.ret 2000003 :=
  ⟨by decide, by decide, by decide, by decide, by decide, by decide⟩

/-- C20: for a descriptor of `key=value` pairs, each 8-bit field (umask, cmask,
any, inv, edge, fc_mask, ch_mask) holds the value read for its key modulo 2^8
and each 32-bit field (event, frontend, ldlat, config1) holds it modulo 2^32.
When the value read for `any` is a multiple of 256 the field is 0, and then
neither the programmable branch of `pmc_pmu_pmcallocate` puts `IAP_ANY` into
the config word nor the fixed branch `IAF_ANY` into the flag word. -/
theorem pmu_parse_event_field_widths (env : ParseEnv) (ped : pmu_event_desc)
    (kvs : List (CStr × CStr)) (hmem : env.strdup_ok = true) (hne : kvs ≠ [])
    (hwf : ∀ kv ∈ kvs, ',' ∉ kv.1 ∧ '=' ∉ kv.1 ∧ ',' ∉ kv.2) :
    ∃ ped1 out, pmu_parse_event env ped (join_tokens (kvs.map kv_token)) =
        Run.ret (0, ped1, out) ∧
      (ped1.ped_umask : Int) = spec_field "umask".toList 16 kvs % 2 ^ 8 ∧
      (ped1.ped_cmask : Int) = spec_field "cmask".toList 10 kvs % 2 ^ 8 ∧
      (ped1.ped_any : Int) = spec_field "any".toList 10 kvs % 2 ^ 8 ∧
      (ped1.ped_inv : Int) = spec_field "inv".toList 10 kvs % 2 ^ 8 ∧
      (ped1.ped_edge : Int) = spec_field "edge".toList 10 kvs % 2 ^ 8 ∧
      (ped1.ped_fc_mask : Int) = spec_field "fc_mask".toList 16 kvs % 2 ^ 8 ∧
      (ped1.ped_ch_mask : Int) = spec_field "ch_mask".toList 16 kvs % 2 ^ 8 ∧
      (ped1.ped_event : Int) = spec_field "event".toList 16 kvs % 2 ^ 32 ∧
      (ped1.ped_frontend : Int) = spec_field "frontend".toList 16 kvs % 2 ^ 32 ∧
      (ped1.ped_ldlat : Int) = spec_field "ldlat".toList 16 kvs % 2 ^ 32 ∧
      (ped1.ped_config1 : Int) = spec_field "config1".toList 16 kvs % 2 ^ 32 ∧
      (spec_field "any".toList 10 kvs % 2 ^ 8 = 0 →
        ped1.ped_any = 0 ∧
        (∀ (K : Consts) (event_name : CStr) (idx : Nat) (pm : pmc_op_pmcallocate),
          pm.pm_iap_config = 0 →
          ∃ pm1, pmcallocate_programmable K event_name idx ped1 pm = Run.ret (0, pm1) ∧
            pm1.pm_iap_config =
              K.IAP_EVSEL ped1.ped_event ||| K.IAP_UMASK ped1.ped_umask |||
                K.IAP_CMASK ped1.ped_cmask ||| K.IAP_USR ||| K.IAP_OS |||
                (if pm1.pm_caps &&& K.PMC_CAP_INTERRUPT ≠ 0 then K.IAP_INT else 0) |||
                (if ped1.ped_edge ≠ 0 ∨ ped1.ped_inv ≠ 0 then K.IAP_EDGE else 0)) ∧
        (∀ (K : Consts) (pe : pmu_event) (desc : CStr) (pm : pmc_op_pmcallocate),
          pe.desc = some desc → pm.pm_iaf_flags = 0 →
          ∃ pm1, pmcallocate_fixed K pe ped1 pm = Run.ret (0, pm1) ∧
            pm1.pm_iaf_flags =
              K.IAF_USR ||| K.IAF_OS |||
                (if pm.pm_caps &&& K.PMC_CAP_INTERRUPT ≠ 0 then K.IAF_PMI else 0))) := by
  obtain ⟨out, hp⟩ := pmu_parse_event_of_pairs env ped kvs hmem hne hwf
  refine ⟨spec_parsed kvs, out, hp, to_u8_cast _, to_u8_cast _, to_u8_cast _, to_u8_cast _,
    to_u8_cast _, to_u8_cast _, to_u8_cast _, to_u32_cast _, to_u32_cast _, to_u32_cast _,
    to_u32_cast _, ?_⟩
  intro hany
  have h0 : (spec_parsed kvs).ped_any = 0 := by
    have h := to_u8_cast (spec_field "any".toList 10 kvs)
    rw [hany] at h
    exact_mod_cast h
  refine ⟨h0, ?_, ?_⟩
  · intro K event_name idx pm hz
    obtain ⟨pm1, h1, -, -, -, -, -, hcfg⟩ :=
      pmcallocate_programmable_fields K event_name idx (spec_parsed kvs) pm hz
    refine ⟨pm1, h1, ?_⟩
    rw [hcfg]
    unfold spec_iap_config
    rw [h0]
    simp only [ne_eq, not_true_eq_false, if_false, Nat.or_zero]
  · intro K pe desc pm hdesc hz
    obtain ⟨pm1, h1, -, -, -, hfl⟩ :=
      pmcallocate_fixed_fields K pe (spec_parsed kvs) pm desc hdesc hz
    refine ⟨pm1, h1, ?_⟩
    rw [hfl]
    unfold spec_iaf_flags
    rw [h0]
    simp only [ne_eq, not_true_eq_false, if_false, Nat.or_zero]

/-- C20, at `event=0x0e,umask=0x100,any=256`: `any` reads as 256 and `umask`
as 256, both fields hold 0, and the config word of `uops_issued.any`, whose
descriptor this is, has no `IAP_ANY` bit. -/
theorem pmu_parse_event_field_widths_witness :
    join_tokens
        ([ ("event".toList, "0x0e".toList), ("umask".toList, "0x100".toList),
           ("any".toList, "256".toList) ].map kv_token) =
      "event=0x0e,umask=0x100,any=256".toList ∧
    spec_field "any".toList 10
        [ ("event".toList, "0x0e".toList), ("umask".toList, "0x100".toList),
          ("any".toList, "256".toList) ] = 256 ∧
    pmu_parse_event ⟨none, true⟩ pmu_event_desc.zero "event=0x0e,umask=0x100,any=256".toList =
      Run.ret (0, { pmu_event_desc.zero with ped_event := 0x0e }, []) ∧
    pmc_pmu_pmcallocate hwpmc sample_env2 "uops_issued.any".toList sample_pm =
      Run.ret (0, { pm_caps := 0x161, pm_class := 7, pm_ev := 4, pm_iap_config := 0x13000e,
                    pm_iap_rsp := 0, pm_iaf_flags := 0 }) ∧
    (0x13000e : Nat) &&& hwpmc.IAP_ANY = 0 ∧
    ∃ ped1 out,
      pmu_parse_event ⟨none, true⟩ pmu_event_desc.zero
          (join_tokens
            ([ ("event".toList, "0x0e".toList), ("umask".toList, "0x100".toList),
               ("any".toList, "256".toList) ].map kv_token)) =
        Run.ret (0, ped1, out) ∧
      (ped1.ped_umask : Int) = 0 ∧ (ped1.ped_any : Int) = 0 ∧ (ped1.ped_event : Int) = 0x0e := by
  obtain ⟨ped1, out, hp, hum, -, hany, -, -, -, -, hev, -⟩ :=
    pmu_parse_event_field_widths ⟨none, true⟩ pmu_event_desc.zero
      [ ("event".toList, "0x0e".toList), ("umask".toList, "0x100".toList),
        ("any".toList, "256".toList) ] rfl (by decide) (by decide)
  refine ⟨by decide, by decide, by decide, by decide, by decide, ped1, out, hp, ?_, ?_, ?_⟩
  · rw [hum]; decide
  · rw [hany]; decide
  · rw [hev]; decide

end Pmu
